import Mathlib

/-!
Verification of the `symex` publicness analysis (dual-execution symbolic
engine, constraint encoder, aggregator) against its specification.

The Python sources are shallowly embedded as executable Lean definitions:
  * `sha256Bytes` models `hashlib.sha256` (FIPS 180-4), used by
    `_label_to_bv` in `symex/symexec.py`;
  * `ZExpr` models the Z3 expression AST as constructed by the engine
    (only the constructors the engine actually builds);
  * `SymState`, `evalInst`, `analyzePath`, … model `symex/symexec.py`;
  * `aggregate_public_at_point` models `symex/publicness.py`;
  * `emitDriver` models `emit_path_publicness_symexec` in `symex/analyze.py`.

Python dictionaries are modelled as ordered association lists with
replace-in-place update (`dset`/`dget`), matching CPython's insertion-order
semantics.  The Z3 solver's `check()` is a parameter
`check : List ZExpr → ZExpr → Option Bool` (`some true` = sat,
`some false` = unsat, `none` = unknown); theorems about concrete verdicts
assume the solver answers correctly with respect to the semantics `evalZ` /
`SatList` below.  The SHA-256-of-sexpr cache key of the query cache is
modelled as the underlying query pair itself (the collision-free-hash
idealisation the spec itself relies on).  Wall-clock time
(`solver_time_ms`) is modelled as the constant 0.
-/

namespace Symex

/-! ### SHA-256 (model of `hashlib.sha256`, FIPS 180-4) -/

/-- Reduce modulo 2^32. -/
def m32 (x : Nat) : Nat := x % 4294967296

/-- Rotate a 32-bit word right by `n`. -/
def rotr32 (n x : Nat) : Nat := ((x >>> n) ||| (x <<< (32 - n))) % 4294967296

/-- Big sigma 0. -/
def bSig0 (x : Nat) : Nat := rotr32 2 x ^^^ rotr32 13 x ^^^ rotr32 22 x

/-- Big sigma 1. -/
def bSig1 (x : Nat) : Nat := rotr32 6 x ^^^ rotr32 11 x ^^^ rotr32 25 x

/-- Small sigma 0. -/
def sSig0 (x : Nat) : Nat := rotr32 7 x ^^^ rotr32 18 x ^^^ (x >>> 3)

/-- Small sigma 1. -/
def sSig1 (x : Nat) : Nat := rotr32 17 x ^^^ rotr32 19 x ^^^ (x >>> 10)

/-- Choice function. -/
def shaCh (x y z : Nat) : Nat := (x &&& y) ^^^ ((x ^^^ 4294967295) &&& z)

/-- Majority function. -/
def shaMaj (x y z : Nat) : Nat := (x &&& y) ^^^ (x &&& z) ^^^ (y &&& z)

/-- SHA-256 round constants. -/
def K256 : List Nat :=
  [0x428A2F98, 0x71374491, 0xB5C0FBCF, 0xE9B5DBA5, 0x3956C25B, 0x59F111F1, 0x923F82A4, 0xAB1C5ED5,
   0xD807AA98, 0x12835B01, 0x243185BE, 0x550C7DC3, 0x72BE5D74, 0x80DEB1FE, 0x9BDC06A7, 0xC19BF174,
   0xE49B69C1, 0xEFBE4786, 0x0FC19DC6, 0x240CA1CC, 0x2DE92C6F, 0x4A7484AA, 0x5CB0A9DC, 0x76F988DA,
   0x983E5152, 0xA831C66D, 0xB00327C8, 0xBF597FC7, 0xC6E00BF3, 0xD5A79147, 0x06CA6351, 0x14292967,
   0x27B70A85, 0x2E1B2138, 0x4D2C6DFC, 0x53380D13, 0x650A7354, 0x766A0ABB, 0x81C2C92E, 0x92722C85,
   0xA2BFE8A1, 0xA81A664B, 0xC24B8B70, 0xC76C51A3, 0xD192E819, 0xD6990624, 0xF40E3585, 0x106AA070,
   0x19A4C116, 0x1E376C08, 0x2748774C, 0x34B0BCB5, 0x391C0CB3, 0x4ED8AA4A, 0x5B9CCA4F, 0x682E6FF3,
   0x748F82EE, 0x78A5636F, 0x84C87814, 0x8CC70208, 0x90BEFFFA, 0xA4506CEB, 0xBEF9A3F7, 0xC67178F2]

/-- SHA-256 initial hash value. -/
def H256 : List Nat :=
  [0x6A09E667, 0xBB67AE85, 0x3C6EF372, 0xA54FF53A, 0x510E527F, 0x9B05688C, 0x1F83D9AB, 0x5BE0CD19]

/-- Big-endian 8-byte encoding of a length (in bits). -/
def be64 (l : Nat) : List Nat :=
  [(l >>> 56) % 256, (l >>> 48) % 256, (l >>> 40) % 256, (l >>> 32) % 256,
   (l >>> 24) % 256, (l >>> 16) % 256, (l >>> 8) % 256, l % 256]

/-- SHA-256 padding: append 0x80, zeros to 56 mod 64, and the 64-bit bit length. -/
def padMessage (msg : List Nat) : List Nat :=
  let r := (msg.length + 1) % 64
  let z := (64 + 56 - r) % 64
  msg ++ [0x80] ++ List.replicate z 0 ++ be64 (msg.length * 8)

/-- Group bytes into big-endian 32-bit words. -/
def bytesToWords : List Nat → List Nat
  | a :: b :: c :: d :: rest =>
      (a * 16777216 + b * 65536 + c * 256 + d) :: bytesToWords rest
  | _ => []

/-- Split a word list into 16-word blocks. -/
def toBlocks (ws : List Nat) : List (List Nat) :=
  if h : ws = [] then []
  else ws.take 16 :: toBlocks (ws.drop 16)
termination_by ws.length
decreasing_by
  simp only [List.length_drop]
  have : 0 < ws.length := List.length_pos.mpr h
  omega

/-- Message-schedule extension step (append `w[i]` for the next index). -/
def schedStep (acc : List Nat) : List Nat :=
  let n := acc.length
  let t := m32 (acc.getD (n - 16) 0 + sSig0 (acc.getD (n - 15) 0) +
                acc.getD (n - 7) 0 + sSig1 (acc.getD (n - 2) 0))
  acc ++ [t]

/-- Extend a 16-word block to the 64-word message schedule. -/
def schedule : Nat → List Nat → List Nat
  | 0, acc => acc
  | n + 1, acc => schedule n (schedStep acc)

/-- One compression round, on the state `[a, b, c, d, e, f, g, h]`. -/
def roundStep (st : List Nat) (wi ki : Nat) : List Nat :=
  let a := st.getD 0 0
  let b := st.getD 1 0
  let c := st.getD 2 0
  let d := st.getD 3 0
  let e := st.getD 4 0
  let f := st.getD 5 0
  let g := st.getD 6 0
  let h := st.getD 7 0
  let t1 := m32 (h + bSig1 e + shaCh e f g + ki + wi)
  let t2 := m32 (bSig0 a + shaMaj a b c)
  [m32 (t1 + t2), a, b, c, m32 (d + t1), e, f, g]

/-- Compress one 16-word block into the running hash. -/
def compressBlock (h : List Nat) (block : List Nat) : List Nat :=
  let w := schedule 48 block
  let fin := (w.zip K256).foldl (fun st wk => roundStep st wk.1 wk.2) h
  (h.zip fin).map (fun p => m32 (p.1 + p.2))

/-- Big-endian bytes of a 32-bit word. -/
def wordBytes (w : Nat) : List Nat :=
  [(w >>> 24) % 256, (w >>> 16) % 256, (w >>> 8) % 256, w % 256]

/-- SHA-256 digest (32 bytes) of a byte string. -/
def sha256Bytes (msg : List Nat) : List Nat :=
  let hs := (toBlocks (bytesToWords (padMessage msg))).foldl compressBlock H256
  (hs.map wordBytes).flatten

/-- UTF-8 encoding of a character (model of Python `str.encode("utf-8")`). -/
def utf8Char (c : Char) : List Nat :=
  let n := c.toNat
  if n < 0x80 then [n]
  else if n < 0x800 then [0xc0 ||| (n >>> 6), 0x80 ||| (n &&& 0x3f)]
  else if n < 0x10000 then
    [0xe0 ||| (n >>> 12), 0x80 ||| ((n >>> 6) &&& 0x3f), 0x80 ||| (n &&& 0x3f)]
  else
    [0xf0 ||| (n >>> 18), 0x80 ||| ((n >>> 12) &&& 0x3f),
     0x80 ||| ((n >>> 6) &&& 0x3f), 0x80 ||| (n &&& 0x3f)]

/-- UTF-8 bytes of a string. -/
def utf8Bytes (s : String) : List Nat := (s.toList.map utf8Char).flatten

/-- Hex digits (as numbers 0..15) of a byte list, two per byte, as in
`hexdigest()`. -/
def hexDigitsOfBytes (bs : List Nat) : List Nat :=
  (bs.map (fun b => [b / 16, b % 16])).flatten

/-- Value of a big-endian hex-digit list, as computed by Python
`int(hexstring, 16)`. -/
def hexVal (ds : List Nat) : Nat := ds.foldl (fun a d => a * 16 + d) 0

/-- Value of a big-endian byte list. -/
def bytesVal (bs : List Nat) : Nat := bs.foldl (fun a b => a * 256 + b) 0

/-- Model of `int(hashlib.sha256(token.encode("utf-8")).hexdigest()[:16], 16)`
from `_label_to_bv`. -/
def labelHashVal (token : String) : Nat :=
  hexVal ((hexDigitsOfBytes (sha256Bytes (utf8Bytes token))).take 16)

/-- The first 64 bits of a digest, read as a big-endian number: the
specification's phrase "first 64 bits of SHA-256 of the token". -/
def first64Bits (digest : List Nat) : Nat := bytesVal (digest.take 8)

/-! ### Z3 expression AST, as constructed by the engine

One untyped expression type, mirroring Z3's Python AST.  Only the
constructors actually built by `symex/symexec.py` appear.  Bit-vector
constants are stored with their value already reduced modulo `2 ^ width`,
as `z3.BitVecVal` does. -/

/-- Z3 expressions as built by the engine. -/
inductive ZExpr where
  | bvval (w : Nat) (v : Nat)
  | bvsym (name : String) (w : Nat)
  | realval (lit : String)
  | realsym (name : String)
  | strval (lit : String)
  | strsym (name : String)
  | zeroext (n : Nat) (e : ZExpr)
  | signext (n : Nat) (e : ZExpr)
  | extract (hi lo : Nat) (e : ZExpr)
  | bvadd (a b : ZExpr)
  | bvsub (a b : ZExpr)
  | bvmul (a b : ZExpr)
  | bvand (a b : ZExpr)
  | bvor (a b : ZExpr)
  | bvxor (a b : ZExpr)
  | bvshl (a b : ZExpr)
  | bvlshr (a b : ZExpr)
  | bvashr (a b : ZExpr)
  | zif (c a b : ZExpr)
  | zeq (a b : ZExpr)
  | zne (a b : ZExpr)
  | bvult (a b : ZExpr)
  | bvule (a b : ZExpr)
  | bvugt (a b : ZExpr)
  | bvuge (a b : ZExpr)
  | bvslt (a b : ZExpr)
  | bvsle (a b : ZExpr)
  | bvsgt (a b : ZExpr)
  | bvsge (a b : ZExpr)
  | btrue
deriving DecidableEq, Repr

/-- Reduce an integer modulo `2 ^ w` into a natural number, as
`z3.BitVecVal` normalises its value argument. -/
def intMod2 (v : Int) (w : Nat) : Nat := (v % ((2 : Int) ^ w)).toNat

/-- Sort width of a bit-vector expression (`e.size()` in Z3), `none` for
non-bit-vector sorts.  Arithmetic and `If` take their sort from the first
argument / then-branch, as in Z3. -/
def bvWidth : ZExpr → Option Nat
  | .bvval w _ => some w
  | .bvsym _ w => some w
  | .zeroext n e => (bvWidth e).map (· + n)
  | .signext n e => (bvWidth e).map (· + n)
  | .extract hi lo _ => some (hi + 1 - lo)
  | .bvadd a _ => bvWidth a
  | .bvsub a _ => bvWidth a
  | .bvmul a _ => bvWidth a
  | .bvand a _ => bvWidth a
  | .bvor a _ => bvWidth a
  | .bvxor a _ => bvWidth a
  | .bvshl a _ => bvWidth a
  | .bvlshr a _ => bvWidth a
  | .bvashr a _ => bvWidth a
  | .zif _ a _ => bvWidth a
  | _ => none

/-- Whether an expression has Boolean sort (`z3.is_bool`). -/
def isBoolE : ZExpr → Bool
  | .zeq _ _ | .zne _ _ => true
  | .bvult _ _ | .bvule _ _ | .bvugt _ _ | .bvuge _ _ => true
  | .bvslt _ _ | .bvsle _ _ | .bvsgt _ _ | .bvsge _ _ => true
  | .btrue => true
  | .zif _ a _ => isBoolE a
  | _ => false

/-- Model of `_as_bv` (symexec.py): width-normalise an expression.  The
`z3.is_int` branch of the source is unreachable because the engine never
constructs integer-sorted terms, so it is not modelled. -/
def asBv (e : ZExpr) (w : Nat) : ZExpr :=
  match bvWidth e with
  | some sz =>
      if sz = w then e
      else if sz < w then .zeroext (w - sz) e
      else .extract (w - 1) 0 e
  | none =>
      if isBoolE e then .zif e (.bvval w 1) (.bvval w 0) else e

/-! ### Semantics of the bit-vector / Boolean fragment

Used to state that a correct solver must answer `sat`/`unsat` on the
queries the engine issues.  Real- and string-sorted terms get no semantics
(`none`); no claim's satisfiability argument involves them. -/

/-- Values of the modelled fragment. -/
inductive ZVal where
  | bv (w v : Nat)
  | bool (b : Bool)
deriving DecidableEq, Repr

/-- Signed (two's-complement) reading of a `w`-bit value. -/
def sIntOf (w v : Nat) : Int := if 2 * v ≥ 2 ^ w then (v : Int) - (2 : Int) ^ w else (v : Int)

/-- Arithmetic shift right on `w`-bit values (z3 `bvashr`). -/
def ashrNat (w v s : Nat) : Nat :=
  let k := min s w
  if 2 * v ≥ 2 ^ w then (v >>> k) + (2 ^ w - 2 ^ (w - k)) else v >>> k

/-- Evaluate a binary bit-vector operation when both sides have the same
width. -/
def evalBvBin (f : Nat → Nat → Nat → Nat) : Option ZVal → Option ZVal → Option ZVal
  | some (.bv w v), some (.bv w' v') => if w = w' then some (.bv w (f w v v')) else none
  | _, _ => none

/-- Evaluate an unsigned comparison when both sides are same-width
bit-vectors. -/
def evalBvCmp (f : Nat → Nat → Nat → Bool) : Option ZVal → Option ZVal → Option ZVal
  | some (.bv w v), some (.bv w' v') => if w = w' then some (.bool (f w v v')) else none
  | _, _ => none

/-- Evaluate an expression under an assignment of naturals to symbol
names. -/
def evalZ (σ : String → Nat) : ZExpr → Option ZVal
  | .bvval w v => some (.bv w (v % 2 ^ w))
  | .bvsym n w => some (.bv w (σ n % 2 ^ w))
  | .realval _ | .realsym _ | .strval _ | .strsym _ => none
  | .zeroext n e =>
      match evalZ σ e with
      | some (.bv w v) => some (.bv (w + n) v)
      | _ => none
  | .signext n e =>
      match evalZ σ e with
      | some (.bv w v) =>
          some (.bv (w + n) (if 2 * v ≥ 2 ^ w then v + (2 ^ (w + n) - 2 ^ w) else v))
      | _ => none
  | .extract hi lo e =>
      match evalZ σ e with
      | some (.bv _ v) => some (.bv (hi + 1 - lo) ((v >>> lo) % 2 ^ (hi + 1 - lo)))
      | _ => none
  | .bvadd a b => evalBvBin (fun w x y => (x + y) % 2 ^ w) (evalZ σ a) (evalZ σ b)
  | .bvsub a b => evalBvBin (fun w x y => (x + (2 ^ w - y)) % 2 ^ w) (evalZ σ a) (evalZ σ b)
  | .bvmul a b => evalBvBin (fun w x y => (x * y) % 2 ^ w) (evalZ σ a) (evalZ σ b)
  | .bvand a b => evalBvBin (fun _ x y => x &&& y) (evalZ σ a) (evalZ σ b)
  | .bvor a b => evalBvBin (fun _ x y => x ||| y) (evalZ σ a) (evalZ σ b)
  | .bvxor a b => evalBvBin (fun _ x y => x ^^^ y) (evalZ σ a) (evalZ σ b)
  | .bvshl a b => evalBvBin (fun w x y => (x <<< y) % 2 ^ w) (evalZ σ a) (evalZ σ b)
  | .bvlshr a b => evalBvBin (fun _ x y => x >>> y) (evalZ σ a) (evalZ σ b)
  | .bvashr a b => evalBvBin (fun w x y => ashrNat w x y) (evalZ σ a) (evalZ σ b)
  | .zif c a b =>
      match evalZ σ c with
      | some (.bool cb) => if cb then evalZ σ a else evalZ σ b
      | _ => none
  | .zeq a b =>
      match evalZ σ a, evalZ σ b with
      | some (.bv w v), some (.bv w' v') => if w = w' then some (.bool (v = v')) else none
      | some (.bool x), some (.bool y) => some (.bool (x = y))
      | _, _ => none
  | .zne a b =>
      match evalZ σ a, evalZ σ b with
      | some (.bv w v), some (.bv w' v') => if w = w' then some (.bool (v ≠ v')) else none
      | some (.bool x), some (.bool y) => some (.bool (x ≠ y))
      | _, _ => none
  | .bvult a b => evalBvCmp (fun _ x y => x < y) (evalZ σ a) (evalZ σ b)
  | .bvule a b => evalBvCmp (fun _ x y => x ≤ y) (evalZ σ a) (evalZ σ b)
  | .bvugt a b => evalBvCmp (fun _ x y => y < x) (evalZ σ a) (evalZ σ b)
  | .bvuge a b => evalBvCmp (fun _ x y => y ≤ x) (evalZ σ a) (evalZ σ b)
  | .bvslt a b => evalBvCmp (fun w x y => sIntOf w x < sIntOf w y) (evalZ σ a) (evalZ σ b)
  | .bvsle a b => evalBvCmp (fun w x y => sIntOf w x ≤ sIntOf w y) (evalZ σ a) (evalZ σ b)
  | .bvsgt a b => evalBvCmp (fun w x y => sIntOf w y < sIntOf w x) (evalZ σ a) (evalZ σ b)
  | .bvsge a b => evalBvCmp (fun w x y => sIntOf w y ≤ sIntOf w x) (evalZ σ a) (evalZ σ b)
  | .btrue => some (.bool true)

/-- A constraint set is satisfiable when some assignment makes every
member evaluate to `true`. -/
def SatList (cs : List ZExpr) : Prop :=
  ∃ σ : String → Nat, ∀ c ∈ cs, evalZ σ c = some (.bool true)

/-! ### Python-dictionary and helper models -/

/-- Lookup in an ordered association list (Python `d[k]` / `k in d`). -/
def dget {α β : Type} [DecidableEq α] : List (α × β) → α → Option β
  | [], _ => none
  | (k', v') :: t, k => if k' = k then some v' else dget t k

/-- Update in an ordered association list, replacing in place or appending
(CPython dict assignment keeps the key's original position). -/
def dset {α β : Type} [DecidableEq α] : List (α × β) → α → β → List (α × β)
  | [], k, v => [(k, v)]
  | (k', v') :: t, k, v => if k' = k then (k, v) :: t else (k', v') :: dset t k v

/-- Truthiness of an optional string (Python `if s:`). -/
def pyTruthy : Option String → Bool
  | none => false
  | some s => s ≠ ""

/-- Model of Python `str.startswith`, phrased on character lists so that
disjointness of prefixes like `label:` and `const:` is provable. -/
def pyStartsWith (s p : String) : Bool :=
  decide (s.toList.take p.toList.length = p.toList)

/-- Drop the first `n` characters of a string (Python `s[n:]`), defined on
the character list so it reduces in the kernel. -/
def strDrop (s : String) (n : Nat) : String := String.mk (s.toList.drop n)

/-- ASCII whitespace, the default strip set of Python `str.strip` for the
tokens at hand. -/
def isSpaceChar (c : Char) : Bool :=
  c = ' ' ∨ c = '\t' ∨ c = '\n' ∨ c = '\r' ∨ c = '\x0b' ∨ c = '\x0c'

/-- Model of Python `str.strip()` (ASCII whitespace). -/
def pyStrip (s : String) : String :=
  String.mk (((s.toList.dropWhile isSpaceChar).reverse.dropWhile isSpaceChar).reverse)

/-- Decimal digits to a number; `none` when empty or non-digit (the
acceptance condition of Python `int` after sign and whitespace). -/
def digitsToNat : List Char → Option Nat
  | l =>
      if l ≠ [] ∧ l.all Char.isDigit then
        some (l.foldl (fun a c => a * 10 + (c.toNat - 48)) 0)
      else none

/-- Model of Python `int(s)`: optional sign and decimal digits, with
surrounding whitespace stripped.  (Underscore digit separators, accepted
by CPython, are not modelled; no token in the wire format uses them.) -/
def pyInt (s : String) : Option Int :=
  match (pyStrip s).toList with
  | '-' :: rest => (digitsToNat rest).map (fun n => -(n : Int))
  | '+' :: rest => (digitsToNat rest).map (fun n => (n : Int))
  | t => (digitsToNat t).map (fun n => (n : Int))

/-- Scan for the first occurrence of `sep`, returning the characters
before it (reversed accumulator unwound) and the remainder after it. -/
def splitOnceAux (sep : List Char) : List Char → List Char → Option (List Char × List Char)
  | acc, [] => none
  | acc, c :: rest =>
      if sep.isPrefixOf (c :: rest) then some (acc.reverse, (c :: rest).drop sep.length)
      else splitOnceAux sep (c :: acc) rest

/-- Model of Python `s.split(sep, 1)` when the result is unpacked into two
variables: `none` models the `ValueError` raised when `sep` is absent. -/
def pySplitOnce (s sep : String) : Option (String × String) :=
  (splitOnceAux sep.toList [] s.toList).map (fun p => (String.mk p.1, String.mk p.2))

/-- Model of Python `sub in s` for non-empty `sub`. -/
def strContains (s sub : String) : Bool := (splitOnceAux sub.toList [] s.toList).isSome

/-- Split on every non-overlapping occurrence of `sep`, left to right
(Python `s.split(sep)` for non-empty `sep`); the fuel argument dominates
the number of characters consumed and keeps the recursion structural. -/
def splitAllAux (sep : List Char) : Nat → List Char → List (List Char)
  | 0, l => [l]
  | fuel + 1, l =>
      match splitOnceAux sep [] l with
      | none => [l]
      | some (a, rest) => a :: splitAllAux sep fuel rest

/-- Model of Python `s.split(sep)` for non-empty `sep`. -/
def pySplit (s sep : String) : List String :=
  (splitAllAux sep.toList s.toList.length s.toList).map String.mk

/-- Lexicographic comparison of character lists by code point. -/
def listLeChars : List Char → List Char → Bool
  | [], _ => true
  | _ :: _, [] => false
  | a :: as, b :: bs =>
      if a.toNat < b.toNat then true
      else if b.toNat < a.toNat then false
      else listLeChars as bs

/-- Model of Python `<=` on strings (code-point lexicographic order). -/
def pyStrLe (a b : String) : Bool := listLeChars a.toList b.toList

/-- Model of Python list indexing `l[i]` with negative-index support;
`Except.error` models `IndexError`. -/
def pyIndex {α : Type} (l : List α) (i : Int) : Except String α :=
  if 0 ≤ i then
    match l.get? i.toNat with
    | some x => .ok x
    | none => .error "IndexError: list index out of range"
  else
    let j : Int := (l.length : Int) + i
    if 0 ≤ j then
      match l.get? j.toNat with
      | some x => .ok x
      | none => .error "IndexError: list index out of range"
    else .error "IndexError: list index out of range"

/-! ### Record model (symex/models.py) -/

/-- Transmitter metadata (`TxInfo`).  `which` is an `int` in the source,
so it is modelled as `Int`. -/
structure TxInfo where
  kind : String
  which : Int
deriving DecidableEq, Repr

/-- Instruction record (`TraceInst`).  Note: the source dataclass has no
`icmp_pred` field, although `symexec.py` reads `inst.icmp_pred` in its
`icmp` branch; that branch therefore raises `AttributeError` (modelled as
an error below). -/
structure TraceInst where
  fn : String
  bb : String
  pp : String
  op : String
  def_id : Option String
  uses : List String
  tx : Option TxInfo
  def_ty : Option String
  use_tys : Option (List String)
deriving DecidableEq, Repr

/-- Per-path verdict record (`PathPublicness`, symex/publicness.py). -/
structure PathPublicness where
  fn : String
  path_id : Int
  pp : String
  value : String
  public : Option Bool
deriving DecidableEq, Repr

/-- Per-path analysis summary (`PathAnalysisSummary`, symex/symexec.py).
`solver_time_ms` is wall-clock time in the source and is modelled as 0. -/
structure PathAnalysisSummary where
  fn : String
  path_id : Int
  inst_count : Nat
  def_count : Nat
  query_count : Nat
  sat_count : Nat
  unsat_count : Nat
  unknown_count : Nat
  solver_time_ms : Nat
  cache_hits : Nat
  cache_misses : Nat
deriving DecidableEq, Repr

/-- Dual-execution symbolic state (`SymState`). -/
structure SymState where
  tag : String
  env : List (String × ZExpr)
  mem : List (String × ZExpr)
  fresh_id : Nat
deriving DecidableEq, Repr

/-! ### Engine helpers (symex/symexec.py) -/

/-- Model of `_parse_ty_width`.  Both fallback returns of the source are
`ptr_width`, so the `"ptr" in ty` test is behaviourally irrelevant. -/
def parse_ty_width (ty : Option String) (ptrW : Nat) : Nat :=
  match ty with
  | none => ptrW
  | some t =>
      match t.toList with
      | [] => ptrW
      | c :: rest =>
          if c = 'i' ∧ rest ≠ [] ∧ rest.all Char.isDigit then (digitsToNat rest).getD ptrW
          else ptrW

/-- Model of `SymExecEngine._fresh`: mint a bit-vector symbol named
`{tag}_{name}_{fresh_id}` and bump the counter. -/
def freshSym (st : SymState) (name : String) (w : Nat) : SymState × ZExpr :=
  let nm := st.tag ++ "_" ++ name ++ "_" ++ toString st.fresh_id
  ({ st with fresh_id := st.fresh_id + 1 }, .bvsym nm w)

/-- Model of `_const_to_bv` for tokens starting `const:i`.  Failures of
`rest.split(":", 1)` unpacking and of `int(...)` are the `ValueError`s of
the source; a negative parsed width is rejected by `z3.BitVecVal`, which
the model surfaces at the same call. -/
def const_to_bv (const_id : String) (width : Nat) : Except String ZExpr :=
  let rest := strDrop const_id 7
  match pySplitOnce rest ":" with
  | none => .error ("ValueError: cannot split constant " ++ const_id)
  | some (w_str, v_str) =>
      match pyInt w_str, pyInt v_str with
      | some w, some v =>
          if w < 0 then .error ("Z3Exception: bad bit-vector width in " ++ const_id)
          else
            let wn := if w = 0 then width else w.toNat
            .ok (.bvval wn (intMod2 v wn))
      | _, _ => .error ("ValueError: invalid integer in " ++ const_id)

/-- Model of `_label_to_bv`. -/
def label_to_bv (label_id : String) (width : Nat) : ZExpr :=
  .bvval width (labelHashVal label_id % 2 ^ width)

/-- Model of `_parse_const`. -/
def parse_const (const_id : String) (width ptrW : Nat) : Except String ZExpr :=
  if pyStartsWith const_id "const:i" then const_to_bv const_id width
  else if pyStartsWith const_id "const:fp:" then .ok (.realval (strDrop const_id 9))
  else if const_id = "const:null" ∨ const_id = "const:undef" ∨ const_id = "const:poison" then
    .ok (.bvval ptrW 0)
  else if pyStartsWith const_id "const:" then .ok (.strval (strDrop const_id 6))
  else .error ("unknown constant: " ++ const_id)

/-- Model of `SymExecEngine._eval_operand`. -/
def eval_operand (ptrW : Nat) (st : SymState) (operand_id : String) (width : Nat) :
    Except String (SymState × ZExpr) :=
  if pyStartsWith operand_id "const:" then
    (parse_const operand_id width ptrW).map (fun e => (st, e))
  else
    match dget st.env operand_id with
    | some e => .ok (st, e)
    | none =>
        let (st2, sym) := freshSym st ("u_" ++ operand_id) width
        .ok ({ st2 with env := dset st2.env operand_id sym }, sym)

/-- Model of `SymExecEngine._token_hint`: kind (`"bv"`, `"real"`, `"str"`,
`"var"`) and optional width of a path-condition token. -/
def token_hint (ptrW : Nat) (token : String) : Except String (String × Option Nat) :=
  if pyStartsWith token "const:i" then
    match pySplitOnce (strDrop token 7) ":" with
    | none => .error ("ValueError: cannot split constant " ++ token)
    | some (w_str, _) =>
        match pyInt w_str with
        | none => .error ("ValueError: invalid integer in " ++ token)
        | some w =>
            if w < 0 then .error ("Z3Exception: bad bit-vector width in " ++ token)
            else .ok ("bv", some w.toNat)
  else if pyStartsWith token "const:fp:" then .ok ("real", none)
  else if token = "const:null" ∨ token = "const:undef" ∨ token = "const:poison" then
    .ok ("bv", some ptrW)
  else if pyStartsWith token "label:" then .ok ("bv", some ptrW)
  else if pyStartsWith token "const:" then .ok ("str", none)
  else .ok ("var", none)

/-- Model of `SymExecEngine._fresh_typed`. -/
def fresh_typed (ptrW : Nat) (st : SymState) (name : String) (prefer_kind : String)
    (prefer_width : Option Nat) : SymState × ZExpr :=
  if prefer_kind = "real" then
    let nm := st.tag ++ "_" ++ name ++ "_" ++ toString st.fresh_id
    ({ st with fresh_id := st.fresh_id + 1 }, .realsym nm)
  else if prefer_kind = "str" then
    let nm := st.tag ++ "_" ++ name ++ "_" ++ toString st.fresh_id
    ({ st with fresh_id := st.fresh_id + 1 }, .strsym nm)
  else
    freshSym st name (prefer_width.getD ptrW)

/-- Model of the Python expression `prefer_width or self.ptr_width` (note:
a width of 0 is falsy and falls back to `ptr_width`). -/
def pyOrW (o : Option Nat) (d : Nat) : Nat :=
  match o with
  | some w => if w = 0 then d else w
  | none => d

/-- Model of `SymExecEngine._eval_condition_token`. -/
def eval_condition_token (ptrW : Nat) (st : SymState) (token : String)
    (prefer_kind : String) (prefer_width : Option Nat) :
    Except String (SymState × ZExpr) :=
  if pyStartsWith token "const:" then
    (parse_const token (pyOrW prefer_width ptrW) ptrW).map (fun e => (st, e))
  else if pyStartsWith token "label:" then
    .ok (st, label_to_bv token (prefer_width.getD ptrW))
  else
    match dget st.env token with
    | some e =>
        if prefer_kind = "bv" then .ok (st, asBv e (prefer_width.getD ptrW))
        else .ok (st, e)
    | none =>
        let (st2, sym) := fresh_typed ptrW st ("pc_" ++ token) prefer_kind prefer_width
        .ok ({ st2 with env := dset st2.env token sym }, sym)

/-- Model of `SymExecEngine._build_cmp_expr`. -/
def build_cmp_expr (ptrW : Nat) (st : SymState) (lhs rhs cmp_op : String) :
    Except String (SymState × ZExpr) := do
  let (l_kind, l_width) ← token_hint ptrW lhs
  let (r_kind, r_width) ← token_hint ptrW rhs
  let lhs_kind := if l_kind = "var" ∧ r_kind ≠ "var" then r_kind else l_kind
  let rhs_kind := if r_kind = "var" ∧ l_kind ≠ "var" then l_kind else r_kind
  let lhs_width := if lhs_kind = "bv" ∧ l_width = none then r_width else l_width
  let rhs_width := if rhs_kind = "bv" ∧ r_width = none then l_width else r_width
  let lhs_kind := if lhs_kind = "var" then "bv" else lhs_kind
  let rhs_kind := if rhs_kind = "var" then "bv" else rhs_kind
  let (st1, l_expr) ← eval_condition_token ptrW st lhs lhs_kind lhs_width
  let (st2, r_expr) ← eval_condition_token ptrW st1 rhs rhs_kind rhs_width
  let (l_expr, r_expr) :=
    match bvWidth l_expr, bvWidth r_expr with
    | some lw, some rw =>
        if lw ≠ rw then
          let w := max lw rw
          (asBv l_expr w, asBv r_expr w)
        else (l_expr, r_expr)
    | _, _ => (l_expr, r_expr)
  if cmp_op = "==" then .ok (st2, .zeq l_expr r_expr)
  else if cmp_op = "!=" then .ok (st2, .zne l_expr r_expr)
  else .error ("unsupported compare op: " ++ cmp_op)

/-! ### Path conditions -/

/-- Structured path-condition node (`path_cond_json` entry): the fields of
the JSON object the source reads (`op`, `terms`, `lhs`, `rhs`).  A missing
or non-string field is `none` / `[]`. -/
inductive PCondJson where
  | mk (op : Option String) (terms : List PCondJson) (lhs rhs : Option String)

mutual

/-- Model of `SymExecEngine._add_path_condition_json` (the produced solver
assertions are returned in order instead of being mutated into a solver). -/
def addPCondJson (ptrW : Nat) (st : SymState) : PCondJson → Except String (SymState × List ZExpr)
  | .mk op terms lhs rhs =>
      if op = some "and" then addPCondJsonList ptrW st terms
      else if op = some "==" ∨ op = some "!=" then
        match lhs, rhs with
        | some l, some r =>
            (build_cmp_expr ptrW st l r (op.getD "")).map (fun p => (p.1, [p.2]))
        | _, _ => .error "malformed path condition JSON"
      else .error "unsupported path condition JSON op"

/-- Fold `addPCondJson` over a term list. -/
def addPCondJsonList (ptrW : Nat) (st : SymState) :
    List PCondJson → Except String (SymState × List ZExpr)
  | [] => .ok (st, [])
  | c :: rest => do
      let (st1, es) ← addPCondJson ptrW st c
      let (st2, es2) ← addPCondJsonList ptrW st1 rest
      .ok (st2, es ++ es2)

end

/-- Encode one textual path-condition string (one `cond` of the loop in
`_add_path_conditions`): split on `" && "`, strip, and parse each part as
`lhs==rhs` or `lhs!=rhs`; anything else is a hard error. -/
def addTextCond (ptrW : Nat) (st : SymState) (cond : String) :
    Except String (SymState × List ZExpr) :=
  let parts := ((pySplit cond " && ").map pyStrip).filter (· ≠ "")
  parts.foldlM
    (fun acc part =>
      if strContains part "==" then
        match pySplitOnce part "==" with
        | some (l, r) =>
            (build_cmp_expr ptrW acc.1 (pyStrip l) (pyStrip r) "==").map
              (fun p => (p.1, acc.2 ++ [p.2]))
        | none => .error ("unsupported path condition string: " ++ part)
      else if strContains part "!=" then
        match pySplitOnce part "!=" with
        | some (l, r) =>
            (build_cmp_expr ptrW acc.1 (pyStrip l) (pyStrip r) "!=").map
              (fun p => (p.1, acc.2 ++ [p.2]))
        | none => .error ("unsupported path condition string: " ++ part)
      else .error ("unsupported path condition string: " ++ part))
    (st, [])

/-- Model of `SymExecEngine._add_path_conditions`: the structured form
takes precedence when non-empty. -/
def add_path_conditions (ptrW : Nat) (st : SymState) (pcs : List String)
    (pcjs : List PCondJson) : Except String (SymState × List ZExpr) :=
  if pcjs.isEmpty = false then addPCondJsonList ptrW st pcjs
  else
    pcs.foldlM
      (fun acc cond =>
        (addTextCond ptrW acc.1 cond).map (fun p => (p.1, acc.2 ++ p.2)))
      (st, [])

/-! ### Instruction evaluation (`SymExecEngine._eval_inst`) -/

/-- Bind the defined value when `def_id` is truthy (`if def_id:`). -/
def bindIf (st : SymState) (d : Option String) (e : ZExpr) : SymState :=
  if pyTruthy d then { st with env := dset st.env (d.getD "") e } else st

/-- Model of the `get_op` closure of `_eval_inst`. -/
def getOpAt (ptrW defW : Nat) (inst : TraceInst) (exec_tag : String) (st : SymState)
    (idx : Nat) : Except String (SymState × ZExpr) :=
  if idx ≥ inst.uses.length then .ok (freshSym st ("missing_" ++ exec_tag) defW)
  else
    let width :=
      match inst.use_tys with
      | some tys =>
          if tys ≠ [] ∧ idx < tys.length then parse_ty_width (some (tys.getD idx "")) ptrW
          else defW
      | none => defW
    eval_operand ptrW st (inst.uses.getD idx "") width

/-- Scan PHI operands as (value, block) pairs and return the first value
whose block matches the previous block, with its operand index (the loop
`for i in range(0, len(uses) - 1, 2)`). -/
def phiFindAux (prev : String) : List String → Nat → Option (String × Nat)
  | v :: b :: rest, i => if b = prev then some (v, i) else phiFindAux prev rest (i + 2)
  | _, _ => none

/-- Operand width used for the chosen PHI incoming value (`width` in the
`phi` branch of `_eval_inst`). -/
def phiOperandWidth (inst : TraceInst) (ptrW : Nat) (cidx : Nat) : Nat :=
  match inst.use_tys with
  | some tys =>
      if tys ≠ [] ∧ cidx < tys.length then parse_ty_width (some (tys.getD cidx "")) ptrW
      else parse_ty_width inst.def_ty ptrW
  | none => parse_ty_width inst.def_ty ptrW

/-- Model of `SymExecEngine._eval_inst`.  The `icmp` branch raises
`AttributeError` because `models.TraceInst` declares no `icmp_pred` field
while the source reads `inst.icmp_pred`. -/
def evalInst (ptrW : Nat) (inst : TraceInst) (st0 : SymState) (exec_tag : String)
    (prev_bb : Option String) : Except String (SymState × Option ZExpr) :=
  let defW := parse_ty_width inst.def_ty ptrW
  if inst.op = "alloca" then
    if pyTruthy inst.def_id then
      let (st1, sym) := freshSym st0 ("alloca_" ++ exec_tag) ptrW
      .ok ({ st1 with env := dset st1.env (inst.def_id.getD "") sym }, none)
    else .ok (st0, none)
  else if inst.op = "load" then
    let ptr_id := inst.uses.headD "unknown_ptr"
    match dget st0.mem ptr_id with
    | some v => .ok (bindIf st0 inst.def_id v, some v)
    | none =>
        let (st1, v) := freshSym st0 ("load_" ++ exec_tag ++ "_" ++ ptr_id) defW
        let st2 := { st1 with mem := dset st1.mem ptr_id v }
        .ok (bindIf st2 inst.def_id v, some v)
  else if inst.op = "store" then
    if inst.uses.length ≥ 2 then do
      let (st1, v) ← getOpAt ptrW defW inst exec_tag st0 0
      let ptr_id := inst.uses.getD 1 ""
      .ok ({ st1 with mem := dset st1.mem ptr_id v }, none)
    else .ok (st0, none)
  else if inst.op ∈ ["add", "sub", "mul", "and", "or", "xor", "shl", "lshr", "ashr"] then do
    let (st1, a0) ← getOpAt ptrW defW inst exec_tag st0 0
    let (st2, b0) ← getOpAt ptrW defW inst exec_tag st1 1
    let a := asBv a0 defW
    let b := asBv b0 defW
    let e :=
      if inst.op = "add" then ZExpr.bvadd a b
      else if inst.op = "sub" then ZExpr.bvsub a b
      else if inst.op = "mul" then ZExpr.bvmul a b
      else if inst.op = "and" then ZExpr.bvand a b
      else if inst.op = "or" then ZExpr.bvor a b
      else if inst.op = "xor" then ZExpr.bvxor a b
      else if inst.op = "shl" then ZExpr.bvshl a b
      else if inst.op = "lshr" then ZExpr.bvlshr a b
      else ZExpr.bvashr a b
    .ok (bindIf st2 inst.def_id e, some e)
  else if inst.op = "icmp" then
    .error "AttributeError: TraceInst object has no attribute icmp_pred"
  else if inst.op = "zext" ∨ inst.op = "sext" then do
    let (st1, a) ← getOpAt ptrW defW inst exec_tag st0 0
    let from_w := (bvWidth a).getD 1
    if defW < from_w then .error "Z3Exception: negative extension width"
    else
      let e :=
        if inst.op = "zext" then ZExpr.zeroext (defW - from_w) (asBv a from_w)
        else ZExpr.signext (defW - from_w) (asBv a from_w)
      .ok (bindIf st1 inst.def_id e, some e)
  else if inst.op = "trunc" then do
    let (st1, a) ← getOpAt ptrW defW inst exec_tag st0 0
    let e := asBv a defW
    .ok (bindIf st1 inst.def_id e, some e)
  else if inst.op = "select" then do
    let (st1, c) ← getOpAt ptrW defW inst exec_tag st0 0
    let (st2, tv) ← getOpAt ptrW defW inst exec_tag st1 1
    let (st3, fv) ← getOpAt ptrW defW inst exec_tag st2 2
    let cond_b := asBv c 1
    let e := ZExpr.zif (.zeq cond_b (.bvval 1 1)) tv fv
    .ok (bindIf st3 inst.def_id e, some e)
  else if inst.op = "getelementptr" then do
    let (st1, base) ← getOpAt ptrW defW inst exec_tag st0 0
    let (st2, idx) ←
      if inst.uses ≠ [] then getOpAt ptrW defW inst exec_tag st1 (inst.uses.length - 1)
      else .ok (freshSym st1 "idx" ptrW)
    let e := ZExpr.bvadd (asBv base ptrW) (asBv idx ptrW)
    .ok (bindIf st2 inst.def_id e, some e)
  else if inst.op = "phi" then
    let chosen : Option (String × Nat) :=
      if inst.uses ≠ [] then
        let found :=
          match prev_bb with
          | some p => if p ≠ "" then phiFindAux p inst.uses 0 else none
          | none => none
        match found with
        | some ci => some ci
        | none => if inst.uses.length ≥ 2 then some (inst.uses.getD 0 "", 0) else none
      else none
    match chosen with
    | some (cid, cidx) => do
        let (st1, e) ← eval_operand ptrW st0 cid (phiOperandWidth inst ptrW cidx)
        .ok (bindIf st1 inst.def_id e, some e)
    | none =>
        let (st1, e) := freshSym st0 ("phi_" ++ exec_tag) defW
        .ok (bindIf st1 inst.def_id e, some e)
  else if inst.op = "call" then
    if pyTruthy inst.def_id then
      let (st1, sym) := freshSym st0 ("call_" ++ exec_tag) defW
      .ok ({ st1 with env := dset st1.env (inst.def_id.getD "") sym }, none)
    else .ok (st0, none)
  else
    if pyTruthy inst.def_id then
      let (st1, e) := freshSym st0 ("u_" ++ exec_tag) defW
      .ok ({ st1 with env := dset st1.env (inst.def_id.getD "") e }, some e)
    else .ok (st0, none)

/-! ### Path analysis (`SymExecEngine.analyze_path`) -/

/-- Query cache: keyed by the (assertion set, differential expression)
query pair, the collision-free idealisation of the source's
SHA-256-of-sexpr key. -/
abbrev Cache := List ((List ZExpr × ZExpr) × Option Bool)

/-- Execute the instruction list in both states with previous-block
tracking, collecting transmitter equalities in order (the first loop of
`analyze_path`). -/
def execLoop (ptrW : Nat) :
    List TraceInst → SymState → SymState → Option String → Option String → List ZExpr →
    Except String (SymState × SymState × List ZExpr)
  | [], stA, stB, _, _, txs => .ok (stA, stB, txs)
  | inst :: rest, stA, stB, prev0, cur0, txs => do
      let pc := if cur0 ≠ some inst.bb then (cur0, some inst.bb) else (prev0, cur0)
      let (stA1, _) ← evalInst ptrW inst stA "A" pc.1
      let (stB1, _) ← evalInst ptrW inst stB "B" pc.1
      match inst.tx with
      | some txi =>
          if txi.which < (inst.uses.length : Int) then do
            let op_id ← pyIndex inst.uses txi.which
            let op_width ←
              match inst.use_tys with
              | some tys =>
                  if tys ≠ [] ∧ txi.which < (tys.length : Int) then
                    (pyIndex tys txi.which).map (fun t => parse_ty_width (some t) ptrW)
                  else .ok ptrW
              | none => .ok ptrW
            let (stA2, aE) ← eval_operand ptrW stA1 op_id op_width
            let (stB2, bE) ← eval_operand ptrW stB1 op_id op_width
            execLoop ptrW rest stA2 stB2 pc.1 pc.2 (txs ++ [.zeq aE bE])
          else execLoop ptrW rest stA1 stB1 pc.1 pc.2 txs
      | none => execLoop ptrW rest stA1 stB1 pc.1 pc.2 txs

/-- Result of the per-definition query loop. -/
structure QueryOut where
  recs : List PathPublicness
  query_count : Nat
  sat_count : Nat
  unsat_count : Nat
  unknown_count : Nat
  cache_hits : Nat
  cache_misses : Nat
  cache : Cache
deriving DecidableEq, Repr

/-- Verdict record for one defining instruction. -/
def mkVerdict (pid : Int) (inst : TraceInst) (p : Option Bool) : PathPublicness :=
  ⟨inst.fn, pid, inst.pp, inst.def_id.getD "", p⟩

/-- The per-definition query loop of `analyze_path`: for each instruction
with a truthy `def_id`, look both bindings up, check `A ≠ B` (through the
optional query cache), and emit a verdict. -/
def queryLoop (check : List ZExpr → ZExpr → Option Bool) (enable : Bool)
    (base : List ZExpr) (stA stB : SymState) (pid : Int) :
    List TraceInst → Cache → QueryOut
  | [], cache => ⟨[], 0, 0, 0, 0, 0, 0, cache⟩
  | inst :: rest, cache =>
      if pyTruthy inst.def_id then
        let d := inst.def_id.getD ""
        match dget stA.env d, dget stB.env d with
        | some aE, some bE =>
            let diff := ZExpr.zne aE bE
            match (if enable then dget cache (base, diff) else none) with
            | some sat =>
                let out := queryLoop check enable base stA stB pid rest cache
                ⟨mkVerdict pid inst sat :: out.recs, out.query_count + 1,
                 out.sat_count + (if sat = some true then 1 else 0),
                 out.unsat_count + (if sat = some false then 1 else 0),
                 out.unknown_count + (if sat = none then 1 else 0),
                 out.cache_hits + 1, out.cache_misses, out.cache⟩
            | none =>
                let sat := check base diff
                let cache2 := if enable then dset cache (base, diff) sat else cache
                let out := queryLoop check enable base stA stB pid rest cache2
                ⟨mkVerdict pid inst sat :: out.recs, out.query_count + 1,
                 out.sat_count + (if sat = some true then 1 else 0),
                 out.unsat_count + (if sat = some false then 1 else 0),
                 out.unknown_count + (if sat = none then 1 else 0),
                 out.cache_hits, out.cache_misses + 1, out.cache⟩
        | _, _ =>
            let out := queryLoop check enable base stA stB pid rest cache
            ⟨mkVerdict pid inst none :: out.recs, out.query_count + 1,
             out.sat_count, out.unsat_count, out.unknown_count + 1,
             out.cache_hits, out.cache_misses, out.cache⟩
      else queryLoop check enable base stA stB pid rest cache

/-- The solver-independent part of `analyze_path`: dual execution,
path-condition encoding for A and for B, and the assertion set in solver
order (A conditions, B conditions, transmitter equalities). -/
def pathBase (ptrW : Nat) (insts : List TraceInst) (pcs : List String)
    (pcjs : List PCondJson) : Except String (SymState × SymState × List ZExpr) := do
  let stA0 : SymState := ⟨"A", [], [], 0⟩
  let stB0 : SymState := ⟨"B", [], [], 0⟩
  let (stA, stB, txs) ← execLoop ptrW insts stA0 stB0 none none []
  let (stA2, condA) ← add_path_conditions ptrW stA pcs pcjs
  let (stB2, condB) ← add_path_conditions ptrW stB pcs pcjs
  .ok (stA2, stB2, condA ++ condB ++ txs)

/-- Model of `SymExecEngine.analyze_path`.  `check` models
`z3.Solver.check` on (assertions, pushed differential); `cache` is the
engine's `_query_cache`, returned updated. -/
def analyzePath (check : List ZExpr → ZExpr → Option Bool) (enable : Bool)
    (cache : Cache) (ptrW : Nat) (pid : Int) (insts : List TraceInst)
    (pcs : List String) (pcjs : List PCondJson) :
    Except String (List PathPublicness × PathAnalysisSummary × Cache) :=
  match pathBase ptrW insts pcs pcjs with
  | .error e => .error e
  | .ok (stA, stB, base) =>
      let out := queryLoop check enable base stA stB pid insts cache
      let summary : PathAnalysisSummary :=
        ⟨((insts.head?).map (fun i => i.fn)).getD "", pid, insts.length,
         (insts.filter (fun i => pyTruthy i.def_id)).length,
         out.query_count, out.sat_count, out.unsat_count, out.unknown_count,
         0, out.cache_hits, out.cache_misses⟩
      .ok (out.recs, summary, out.cache)

/-! ### Driver (`emit_path_publicness_symexec`, symex/analyze.py) -/

/-- One path bundle as the driver sees it (the driver passes only the
textual `path_cond`; `path_cond_json` is never forwarded). -/
structure PathBundle where
  path_id : Option Int
  insts : List TraceInst
  path_cond : List String
deriving DecidableEq, Repr

/-- Model of `emit_path_publicness_symexec`: analyze each bundle with a
shared engine (shared cache).  An exception from `analyze_path`
propagates: no verdict is written for that bundle and later bundles are
not analyzed.  On a successful `analyze_path` the driver binds the
returned `(records, summary)` pair to `results` and iterates the pair
itself, so building the first output record evaluates `r.fn` with `r`
the records list and raises `AttributeError` before anything is written:
again no verdict, and later bundles are not analyzed.  The output is the
records written (none in every reachable case), the engine cache at the
abort, and the propagating error, if any. -/
def emitDriver (check : List ZExpr → ZExpr → Option Bool) (enable : Bool) (ptrW : Nat)
    (cache : Cache) : List PathBundle → List PathPublicness × Cache × Option String
  | [] => ([], cache, none)
  | b :: rest =>
      match b.path_id with
      | none => emitDriver check enable ptrW cache rest
      | some pid =>
          match analyzePath check enable cache ptrW pid b.insts b.path_cond [] with
          | .error e => ([], cache, some e)
          | .ok (_, _, cache2) =>
              ([], cache2, some "AttributeError: list object has no attribute fn")

/-! ### Aggregation (symex/publicness.py) -/

/-- Coverage record (`PpCoverage`). -/
structure PpCoverage where
  fn : String
  pp : String
  path_count : Int
  path_ids : List Int
  truncated : Bool
deriving DecidableEq, Repr

/-- Path record (`CfgPath`), restricted to the fields
`aggregate_public_at_point` reads (`fn`, `path_id`, `pp_seq`); the
remaining fields (`bbs`, `decisions`, `path_cond`, `path_cond_json`) are
not consulted by the aggregator. -/
structure CfgPath where
  fn : String
  path_id : Option Int
  pp_seq : List String
deriving DecidableEq, Repr

/-- Aggregated verdict record (`PublicAtPoint`). -/
structure PublicAtPoint where
  fn : String
  pp : String
  value : String
  public : Option Bool
  total_paths : Nat
  missing_paths : Nat
  truncated : Bool
deriving DecidableEq, Repr

/-- Deduplicate keeping first occurrences (set contents; order is
irrelevant because the result is sorted). -/
def dedupAux : List String → List String → List String
  | [], _ => []
  | x :: t, seen => if x ∈ seen then dedupAux t seen else x :: dedupAux t (x :: seen)

/-- Insert into a sorted string list. -/
def insertSorted (x : String) : List String → List String
  | [] => [x]
  | y :: t => if pyStrLe x y then x :: y :: t else y :: insertSorted x t

/-- Insertion sort, ascending lexicographic order: the model of Python
`sorted` on strings. -/
def sortStrings (l : List String) : List String := l.foldr insertSorted []

/-- Model of `_build_pp_paths`: mapping `(fn, pp) -> (path_ids, truncated)`
from coverage records when present, else derived from `pp_seq` (deduped
within a path). -/
def buildPpPaths (paths : List CfgPath) (cov : List PpCoverage) :
    List ((String × String) × (List Int × Bool)) :=
  if cov.isEmpty = false then
    cov.foldl (fun m r => dset m (r.fn, r.pp) (r.path_ids, r.truncated)) []
  else
    paths.foldl
      (fun m p =>
        match p.path_id with
        | none => m
        | some pid =>
            if p.pp_seq.isEmpty then m
            else
              (p.pp_seq.foldl
                (fun (acc : List ((String × String) × (List Int × Bool)) × List (String × String)) pp =>
                  let key := (p.fn, pp)
                  if key ∈ acc.2 then acc
                  else
                    let cur := (dget acc.1 key).getD ([], false)
                    (dset acc.1 key (cur.1 ++ [pid], cur.2), key :: acc.2))
                (m, [])).1)
      []

/-- Build the verdict mapping `(fn, pp, value) -> (path_id -> public)`
from the result stream (later records for the same path overwrite, as with
dict assignment). -/
def buildResults (rs : List PathPublicness) :
    List ((String × String × String) × List (Int × Option Bool)) :=
  rs.foldl
    (fun m r =>
      let key := (r.fn, r.pp, r.value)
      let inner := (dget m key).getD []
      dset m key (dset inner r.path_id r.public))
    []

/-- One step of the covering-path scan of `aggregate_public_at_point`:
update `(missing, any_false, any_unknown)` for one path id. -/
def aggStep (per_path : List (Int × Option Bool)) (acc : Nat × Bool × Bool)
    (pid : Int) : Nat × Bool × Bool :=
  match dget per_path pid with
  | none => (acc.1 + 1, acc.2.1, true)
  | some (some false) => (acc.1, true, acc.2.2)
  | some none => (acc.1, acc.2.1, true)
  | some (some true) => acc

/-- Scan the covering paths (the `for pid in path_ids` loop). -/
def aggStatsAux (per_path : List (Int × Option Bool)) :
    List Int → Nat × Bool × Bool → Nat × Bool × Bool
  | [], acc => acc
  | pid :: t, acc => aggStatsAux per_path t (aggStep per_path acc pid)

/-- Fold over the covering paths, counting missing paths and detecting a
`false` or unknown verdict: `(missing, any_false, any_unknown)`. -/
def aggStats (per_path : List (Int × Option Bool)) (path_ids : List Int) :
    Nat × Bool × Bool :=
  aggStatsAux per_path path_ids (0, false, false)

/-- The aggregation decision of `aggregate_public_at_point`. -/
def aggDecide (stats : Nat × Bool × Bool) (truncated : Bool)
    (missing_policy : String) : Option Bool :=
  if stats.2.1 then some false
  else if stats.2.2 || truncated then
    if missing_policy = "public" then some true
    else if missing_policy = "secret" then some false
    else none
  else some true

/-- The records produced for one `(fn, pp)` entry of the coverage map (one
iteration of the outer loop of `aggregate_public_at_point`). -/
def aggItemRecords (results : List ((String × String × String) × List (Int × Option Bool)))
    (missing_policy : String) (item : (String × String) × (List Int × Bool)) :
    List PublicAtPoint :=
  let fn := item.1.1
  let pp := item.1.2
  let path_ids := item.2.1
  let truncated := item.2.2
  let values :=
    results.filterMap
      (fun kv => if kv.1.1 = fn ∧ kv.1.2.1 = pp then some kv.1.2.2 else none)
  if values.isEmpty then []
  else
    (sortStrings (dedupAux values [])).map
      (fun value =>
        let per_path := (dget results (fn, pp, value)).getD []
        let stats := aggStats per_path path_ids
        ⟨fn, pp, value, aggDecide stats truncated missing_policy,
         path_ids.length, stats.1, truncated⟩)

/-- Model of `aggregate_public_at_point`. -/
def aggregate_public_at_point (paths : List CfgPath) (pp_coverage : List PpCoverage)
    (path_results : List PathPublicness) (missing_policy : String) :
    List PublicAtPoint :=
  ((buildPpPaths paths pp_coverage).map
    (aggItemRecords (buildResults path_results) missing_policy)).flatten

/-! ## Generic association-list lemmas -/

theorem dget_mem {α β : Type} [DecidableEq α] {m : List (α × β)} {k : α} {v : β}
    (h : dget m k = some v) : (k, v) ∈ m := by
  induction m with
  | nil => simp [dget] at h
  | cons p t ih =>
      obtain ⟨k', v'⟩ := p
      by_cases hk : k' = k
      · subst hk
        simp [dget] at h
        subst h
        exact List.mem_cons_self _ _
      · simp [dget, hk] at h
        exact List.mem_cons_of_mem _ (ih h)

theorem mem_dget_of_nodup {α β : Type} [DecidableEq α] {m : List (α × β)} {k : α} {v : β}
    (hn : (m.map Prod.fst).Nodup) (h : (k, v) ∈ m) : dget m k = some v := by
  induction m with
  | nil => simp at h
  | cons p t ih =>
      obtain ⟨k', v'⟩ := p
      simp only [List.map_cons, List.nodup_cons] at hn
      rcases List.mem_cons.mp h with h1 | h1
      · obtain ⟨hk, hv⟩ := Prod.mk.injEq .. ▸ h1
        simp [dget, hk.symm, hv]
      · have hne : k' ≠ k := by
          intro he
          subst he
          exact hn.1 (List.mem_map.mpr ⟨(k', v), h1, rfl⟩)
        simpa [dget, hne] using ih hn.2 h1

theorem dget_dset_self {α β : Type} [DecidableEq α] (m : List (α × β)) (k : α) (v : β) :
    dget (dset m k v) k = some v := by
  induction m with
  | nil => simp [dget, dset]
  | cons p t ih =>
      obtain ⟨k', v'⟩ := p
      by_cases hk : k' = k
      · simp [dget, dset, hk]
      · simp [dget, dset, hk, ih]

theorem dget_dset_ne {α β : Type} [DecidableEq α] (m : List (α × β)) {k k' : α} (v : β)
    (h : k' ≠ k) : dget (dset m k' v) k = dget m k := by
  induction m with
  | nil => simp [dget, dset, h]
  | cons p t ih =>
      obtain ⟨k0, v0⟩ := p
      by_cases hk : k0 = k'
      · subst hk
        simp [dget, dset, h]
      · simp only [dset, if_neg hk]
        by_cases hkk : k0 = k
        · simp [dget, hkk]
        · simp [dget, hkk, ih]

theorem keys_dset {α β : Type} [DecidableEq α] (m : List (α × β)) (k : α) (v : β) :
    ((dset m k v).map Prod.fst = m.map Prod.fst) ∨
    ((dset m k v).map Prod.fst = m.map Prod.fst ++ [k]) := by
  induction m with
  | nil => right; simp [dset]
  | cons p t ih =>
      obtain ⟨k', v'⟩ := p
      by_cases hk : k' = k
      · left; simp [dset, hk]
      · rcases ih with h | h
        · left; simp [dset, hk, h]
        · right; simp [dset, hk, h]

theorem nodupKeys_dset {α β : Type} [DecidableEq α] {m : List (α × β)} (k : α) (v : β)
    (hn : (m.map Prod.fst).Nodup) : ((dset m k v).map Prod.fst).Nodup := by
  induction m with
  | nil => simp [dset]
  | cons p t ih =>
      obtain ⟨k', v'⟩ := p
      simp only [List.map_cons, List.nodup_cons] at hn
      by_cases hk : k' = k
      · subst hk
        have hd : dset ((k', v') :: t) k' v = (k', v) :: t := by simp [dset]
        rw [hd]
        simpa using hn
      · simp only [dset, if_neg hk, List.map_cons, List.nodup_cons]
        refine ⟨?_, ih hn.2⟩
        intro hmem
        rcases keys_dset t k v with h | h
        · exact hn.1 (h ▸ hmem)
        · rw [h] at hmem
          rcases List.mem_append.mp hmem with h1 | h1
          · exact hn.1 h1
          · exact hk (List.mem_singleton.mp h1)

/-! ## C5 — width coercion in the constraint encoder -/

/-- C5: on the engine's constraint encoder (`_add_path_conditions` /
`_build_cmp_expr`), asserting `v == const:i32:0` binds `v` as a 32-bit
bit-vector symbol, and the subsequent atom `v == const:i64:0` zero-extends
the narrower side to 64 bits before asserting the equality; no error is
raised (the result is `Except.ok`, with `v` still bound at 32 bits). -/
theorem c5_width_coercion :
    add_path_conditions 64 ⟨"A", [], [], 0⟩ ["v == const:i32:0", "v == const:i64:0"] [] =
      .ok (⟨"A", [("v", .bvsym "A_pc_v_0" 32)], [], 1⟩,
           [.zeq (.bvsym "A_pc_v_0" 32) (.bvval 32 0),
            .zeq (.zeroext 32 (.bvsym "A_pc_v_0" 32)) (.bvval 64 0)]) := by
  rfl

/-! ## C6 — label tokens encode as the first 64 bits of SHA-256 -/

theorem hexDigits_cons (b : Nat) (t : List Nat) :
    hexDigitsOfBytes (b :: t) = b / 16 :: b % 16 :: hexDigitsOfBytes t := by
  simp [hexDigitsOfBytes]

theorem take_hexDigits (k : Nat) (bs : List Nat) :
    (hexDigitsOfBytes bs).take (2 * k) = hexDigitsOfBytes (bs.take k) := by
  induction bs generalizing k with
  | nil => simp [hexDigitsOfBytes]
  | cons b t ih =>
      cases k with
      | zero => simp [hexDigitsOfBytes]
      | succ k' =>
          rw [hexDigits_cons, show 2 * (k' + 1) = 2 * k' + 1 + 1 by ring, List.take_succ_cons,
            List.take_succ_cons, ih, List.take_succ_cons, hexDigits_cons]

theorem foldl_hexDigits (bs : List Nat) (a : Nat) :
    (hexDigitsOfBytes bs).foldl (fun x d => x * 16 + d) a =
      bs.foldl (fun x b => x * 256 + b) a := by
  induction bs generalizing a with
  | nil => simp [hexDigitsOfBytes]
  | cons b t ih =>
      rw [hexDigits_cons, List.foldl_cons, List.foldl_cons, List.foldl_cons, ih]
      congr 1
      have := Nat.div_add_mod b 16
      omega

theorem labelHashVal_eq_first64 (token : String) :
    labelHashVal token = first64Bits (sha256Bytes (utf8Bytes token)) := by
  unfold labelHashVal first64Bits hexVal bytesVal
  rw [show (16 : Nat) = 2 * 8 from rfl, take_hexDigits, foldl_hexDigits]

theorem sha256Bytes_lt (msg : List Nat) : ∀ b ∈ sha256Bytes msg, b < 256 := by
  intro b hb
  unfold sha256Bytes at hb
  rcases List.mem_flatten.mp hb with ⟨l, hl, hbl⟩
  rcases List.mem_map.mp hl with ⟨w, _, rfl⟩
  simp only [wordBytes, List.mem_cons, List.mem_singleton] at hbl
  rcases hbl with rfl | rfl | rfl | rfl | hfalse
  · exact Nat.mod_lt _ (by norm_num)
  · exact Nat.mod_lt _ (by norm_num)
  · exact Nat.mod_lt _ (by norm_num)
  · exact Nat.mod_lt _ (by norm_num)
  · simp at hfalse

theorem roundFold_length (l : List (Nat × Nat)) (st : List Nat) (h : st.length = 8) :
    (l.foldl (fun st wk => roundStep st wk.1 wk.2) st).length = 8 := by
  induction l generalizing st with
  | nil => simpa using h
  | cons p t ih => exact ih _ (by simp [roundStep])

theorem compressBlock_length (h : List Nat) (b : List Nat) (hh : h.length = 8) :
    (compressBlock h b).length = 8 := by
  unfold compressBlock
  rw [List.length_map, List.length_zip, roundFold_length _ _ hh, hh]
  rfl

theorem foldl_compress_length (blocks : List (List Nat)) (h : List Nat) (hh : h.length = 8) :
    (blocks.foldl compressBlock h).length = 8 := by
  induction blocks generalizing h with
  | nil => simpa using hh
  | cons b t ih => exact ih _ (compressBlock_length _ _ hh)

theorem flatten_wordBytes_length (hs : List Nat) :
    ((hs.map wordBytes).flatten).length = 4 * hs.length := by
  induction hs with
  | nil => simp
  | cons w t ih =>
      simp only [List.map_cons, List.flatten_cons, List.length_append, ih, List.length_cons]
      simp [wordBytes]
      omega

theorem sha256Bytes_length (msg : List Nat) : (sha256Bytes msg).length = 32 := by
  unfold sha256Bytes
  rw [flatten_wordBytes_length,
    foldl_compress_length (toBlocks (bytesToWords (padMessage msg))) H256 (by rfl)]

theorem foldl_bytes_lt (bs : List Nat) :
    ∀ a : Nat, (∀ b ∈ bs, b < 256) →
      bs.foldl (fun x b => x * 256 + b) a < (a + 1) * 256 ^ bs.length := by
  induction bs with
  | nil => intro a _; simpa using Nat.lt_succ_self a
  | cons b t ih =>
      intro a h
      have hb : b < 256 := h b (List.mem_cons_self _ _)
      have ht : ∀ x ∈ t, x < 256 := fun x hx => h x (List.mem_cons_of_mem _ hx)
      have h1 := ih (a * 256 + b) ht
      have h2 : (a * 256 + b + 1) * 256 ^ t.length ≤ ((a + 1) * 256) * 256 ^ t.length :=
        Nat.mul_le_mul_right _ (by omega)
      calc (b :: t).foldl (fun x b => x * 256 + b) a
          = t.foldl (fun x b => x * 256 + b) (a * 256 + b) := by simp
        _ < (a * 256 + b + 1) * 256 ^ t.length := h1
        _ ≤ ((a + 1) * 256) * 256 ^ t.length := h2
        _ = (a + 1) * 256 ^ (t.length + 1) := by ring
        _ = (a + 1) * 256 ^ (b :: t).length := by rw [List.length_cons]

theorem bytesVal_lt (bs : List Nat) (h : ∀ b ∈ bs, b < 256) :
    bytesVal bs < 256 ^ bs.length := by
  have := foldl_bytes_lt bs 0 h
  simpa [bytesVal] using this

theorem first64Bits_sha_lt (msg : List Nat) :
    first64Bits (sha256Bytes msg) < 2 ^ 64 := by
  have hlen : ((sha256Bytes msg).take 8).length = 8 := by
    rw [List.length_take, sha256Bytes_length]
    rfl
  have hmem : ∀ b ∈ (sha256Bytes msg).take 8, b < 256 := fun b hb =>
    sha256Bytes_lt msg b (List.take_subset _ _ hb)
  have h := bytesVal_lt _ hmem
  rw [hlen] at h
  calc first64Bits (sha256Bytes msg) = bytesVal ((sha256Bytes msg).take 8) := rfl
    _ < 256 ^ 8 := h
    _ = 2 ^ 64 := by norm_num

theorem label_token_facts (token : String) (h : pyStartsWith token "label:" = true) :
    pyStartsWith token "const:i" = false ∧ pyStartsWith token "const:fp:" = false ∧
    pyStartsWith token "const:" = false ∧
    token ≠ "const:null" ∧ token ≠ "const:undef" ∧ token ≠ "const:poison" := by
  have h6 : token.toList.take 6 = "label:".toList := of_decide_eq_true h
  refine ⟨?_, ?_, ?_, ?_, ?_, ?_⟩
  · simp only [pyStartsWith, decide_eq_false_iff_not]
    intro h7
    have h7' : token.toList.take 7 = "const:i".toList := h7
    have hc : token.toList.take 6 = "const:".toList := by
      have := congrArg (List.take 6) h7'
      rwa [List.take_take, show min 6 7 = 6 from rfl,
        show ("const:i".toList).take 6 = "const:".toList from rfl] at this
    exact absurd (h6.symm.trans hc) (by decide)
  · simp only [pyStartsWith, decide_eq_false_iff_not]
    intro h9
    have h9' : token.toList.take 9 = "const:fp:".toList := h9
    have hc : token.toList.take 6 = "const:".toList := by
      have := congrArg (List.take 6) h9'
      rwa [List.take_take, show min 6 9 = 6 from rfl,
        show ("const:fp:".toList).take 6 = "const:".toList from rfl] at this
    exact absurd (h6.symm.trans hc) (by decide)
  · simp only [pyStartsWith, decide_eq_false_iff_not]
    intro hc0
    have hc : token.toList.take 6 = "const:".toList := hc0
    exact absurd (h6.symm.trans hc) (by decide)
  · intro he; subst he; exact absurd h6 (by decide)
  · intro he; subst he; exact absurd h6 (by decide)
  · intro he; subst he; exact absurd h6 (by decide)

/-- C6: every path-condition token beginning `label:` receives the hint
kind `bv` at pointer width (64, the engine's only instantiation), and the
encoder (`_eval_condition_token` / `_label_to_bv`) produces the bit-vector
constant of pointer width whose value is the first 64 bits of the SHA-256
digest of the token. -/
theorem c6_label_token_encoding (st : SymState) (token prefK : String)
    (h : pyStartsWith token "label:" = true) :
    token_hint 64 token = .ok ("bv", some 64) ∧
    eval_condition_token 64 st token prefK (some 64) =
      .ok (st, .bvval 64 (first64Bits (sha256Bytes (utf8Bytes token)))) := by
  obtain ⟨h1, h2, h3, h4, h5, h6'⟩ := label_token_facts token h
  constructor
  · simp [token_hint, h1, h2, h3, h4, h5, h6', h]
  · simp only [eval_condition_token, h3, h, Bool.false_eq_true, if_false, if_true,
      label_to_bv, Option.getD_some]
    rw [labelHashVal_eq_first64, Nat.mod_eq_of_lt (first64Bits_sha_lt _)]

/-- Witness for C6 at the concrete token `label:bb1`. -/
theorem c6_label_token_encoding_witness :
    pyStartsWith "label:bb1" "label:" = true ∧
    (token_hint 64 "label:bb1" = .ok ("bv", some 64) ∧
     eval_condition_token 64 ⟨"A", [], [], 0⟩ "label:bb1" "bv" (some 64) =
       .ok (⟨"A", [], [], 0⟩, .bvval 64 (first64Bits (sha256Bytes (utf8Bytes "label:bb1"))))) :=
  ⟨by decide, c6_label_token_encoding ⟨"A", [], [], 0⟩ "label:bb1" "bv" (by decide)⟩

/-! ## C8 — PHI resolution -/

/-- C8 counterexample: for the phi `d := phi [(const:i32:1, blk), (const:i32:2, blk)]`
with previous block `blk`, the claim demands the binding of the second
incoming value (`const:i32:2` evaluating to `BitVecVal 2 32`), but the
scan takes the first matching pair and binds `const:i32:1`'s value
`BitVecVal 1 32`. -/
theorem c8_phi_counterexample :
    evalInst 64 ⟨"f", "b", "p", "phi", some "d",
        ["const:i32:1", "blk", "const:i32:2", "blk"], none, some "i32", none⟩
      ⟨"A", [], [], 0⟩ "A" (some "blk") =
      .ok (⟨"A", [("d", .bvval 32 1)], [], 0⟩, some (.bvval 32 1)) ∧
    eval_operand 64 ⟨"A", [], [], 0⟩ "const:i32:2" 32 =
      .ok (⟨"A", [], [], 0⟩, .bvval 32 2) ∧
    ZExpr.bvval 32 1 ≠ ZExpr.bvval 32 2 :=
  ⟨rfl, rfl, by decide⟩

/-- C8 (amended): for a phi whose uses are the pairs `(v0, b0), (v1, b1)`,
if the previous block equals `b1` and differs from `b0`, the def binds to
the evaluation of `v1` (when `b0 = b1`, the first matching pair wins and
`v0` is chosen); when the previous block is unknown or matches neither
listed block, the def binds to the evaluation of `v0`. -/
theorem c8_phi_resolution (ptrW : Nat) (inst : TraceInst) (st : SymState) (tag : String)
    (v0 b0 v1 b1 : String) (prev : Option String)
    (hop : inst.op = "phi") (huses : inst.uses = [v0, b0, v1, b1]) :
    ((prev = some b1 ∧ b1 ≠ "" ∧ b0 ≠ b1) →
      evalInst ptrW inst st tag prev =
        (eval_operand ptrW st v1 (phiOperandWidth inst ptrW 2)).map
          (fun p => (bindIf p.1 inst.def_id p.2, some p.2))) ∧
    ((prev = none ∨ ∃ p, prev = some p ∧ p ≠ b0 ∧ p ≠ b1) →
      evalInst ptrW inst st tag prev =
        (eval_operand ptrW st v0 (phiOperandWidth inst ptrW 0)).map
          (fun p => (bindIf p.1 inst.def_id p.2, some p.2))) := by
  constructor
  · rintro ⟨rfl, hb1, hne⟩
    cases he : eval_operand ptrW st v1 (phiOperandWidth inst ptrW 2) <;>
      simp [evalInst, hop, huses, phiFindAux, hb1, hne, he, Except.bind, Except.map]
    all_goals rfl
  · rintro (rfl | ⟨p, rfl, hp0, hp1⟩)
    · cases he : eval_operand ptrW st v0 (phiOperandWidth inst ptrW 0) <;>
        simp [evalInst, hop, huses, he, Except.bind, Except.map]
      all_goals rfl
    · by_cases hpe : p = ""
      · subst hpe
        cases he : eval_operand ptrW st v0 (phiOperandWidth inst ptrW 0) <;>
          simp [evalInst, hop, huses, he, Except.bind, Except.map]
        all_goals rfl
      · cases he : eval_operand ptrW st v0 (phiOperandWidth inst ptrW 0) <;>
          simp [evalInst, hop, huses, phiFindAux, hpe, Ne.symm hp0, Ne.symm hp1, he,
            Except.bind, Except.map]
        all_goals rfl

/-- Witness for the amended C8 at concrete blocks `b0 ≠ b1`. -/
theorem c8_phi_resolution_witness :
    (evalInst 64 ⟨"f", "b", "p", "phi", some "d", ["x", "b0", "y", "b1"], none, some "i32", none⟩
        ⟨"A", [], [], 0⟩ "A" (some "b1") =
      (eval_operand 64 ⟨"A", [], [], 0⟩ "y"
          (phiOperandWidth ⟨"f", "b", "p", "phi", some "d", ["x", "b0", "y", "b1"],
            none, some "i32", none⟩ 64 2)).map
        (fun p => (bindIf p.1 (some "d") p.2, some p.2))) ∧
    (evalInst 64 ⟨"f", "b", "p", "phi", some "d", ["x", "b0", "y", "b1"], none, some "i32", none⟩
        ⟨"A", [], [], 0⟩ "A" none =
      (eval_operand 64 ⟨"A", [], [], 0⟩ "x"
          (phiOperandWidth ⟨"f", "b", "p", "phi", some "d", ["x", "b0", "y", "b1"],
            none, some "i32", none⟩ 64 0)).map
        (fun p => (bindIf p.1 (some "d") p.2, some p.2))) :=
  ⟨(c8_phi_resolution 64 _ _ "A" "x" "b0" "y" "b1" (some "b1") rfl rfl).1
      ⟨rfl, by decide, by decide⟩,
   (c8_phi_resolution 64 _ _ "A" "x" "b0" "y" "b1" none rfl rfl).2 (Or.inl rfl)⟩

/-! ## C4 — malformed path-condition atoms -/

/-- C4: the claim says a malformed path-condition atom is fatal to its
path while the analysis still produces verdicts for the other paths.  The
driver cannot do this: it has no exception handler, and it iterates the
`(records, summary)` pair returned by `analyze_path`, so even a
successfully analyzed path raises `AttributeError` before its first
verdict is written.  Proved: every run of the driver emits no verdicts at
all, and every run containing a bundle with a path id ends in an error
(the engine's when `analyze_path` raises, the driver's own otherwise). -/
theorem c4_driver_divergence (check : List ZExpr → ZExpr → Option Bool) (enable : Bool)
    (ptrW : Nat) (cache : Cache) (bundles : List PathBundle) :
    (emitDriver check enable ptrW cache bundles).1 = [] ∧
      ((∃ b ∈ bundles, b.path_id ≠ none) →
        (emitDriver check enable ptrW cache bundles).2.2 ≠ none) := by
  induction bundles generalizing cache with
  | nil =>
      refine ⟨rfl, ?_⟩
      rintro ⟨b, hb, -⟩
      exact absurd hb (List.not_mem_nil b)
  | cons b rest ih =>
      cases hb : b.path_id with
      | none =>
          constructor
          · simpa [emitDriver, hb] using (ih cache).1
          · rintro ⟨b', hb', hne⟩
            rcases List.mem_cons.mp hb' with h | h
            · exact absurd hb (h ▸ hne)
            · simpa [emitDriver, hb] using (ih cache).2 ⟨b', h, hne⟩
      | some pid =>
          cases ha : analyzePath check enable cache ptrW pid b.insts b.path_cond [] with
          | error e =>
              exact ⟨by simp [emitDriver, hb, ha], fun _ => by simp [emitDriver, hb, ha]⟩
          | ok trip =>
              obtain ⟨recs, sum, cache2⟩ := trip
              exact ⟨by simp [emitDriver, hb, ha], fun _ => by simp [emitDriver, hb, ha]⟩

/-- Witness for C4: the claim's own scenario — a well-formed load path
followed by a path carrying the malformed atom `foo` — emits no verdicts
and ends in an error. -/
theorem c4_driver_divergence_witness :
    (∃ b ∈ [(⟨some 5, [⟨"f", "bb0", "p0", "load", some "s", ["ptrX"], none, some "i32",
              none⟩], []⟩ : PathBundle),
            ⟨some 1, [], ["foo"]⟩], b.path_id ≠ none) ∧
    (emitDriver (fun _ _ => some true) true 64 []
        [⟨some 5, [⟨"f", "bb0", "p0", "load", some "s", ["ptrX"], none, some "i32", none⟩], []⟩,
         ⟨some 1, [], ["foo"]⟩]).1 = [] ∧
    (emitDriver (fun _ _ => some true) true 64 []
        [⟨some 5, [⟨"f", "bb0", "p0", "load", some "s", ["ptrX"], none, some "i32", none⟩], []⟩,
         ⟨some 1, [], ["foo"]⟩]).2.2 ≠ none :=
  ⟨by decide,
   (c4_driver_divergence (fun _ _ => some true) true 64 [] _).1,
   (c4_driver_divergence (fun _ _ => some true) true 64 [] _).2 (by decide)⟩

/-! ## C10 — out-of-range transmitter index -/

/-- Clear the transmitter tag exactly when its index is at or beyond the
operand count (`which >= len(uses)`). -/
def dropBadTx (i : TraceInst) : TraceInst :=
  match i.tx with
  | some t => if (i.uses.length : Int) ≤ t.which then { i with tx := none } else i
  | none => i

theorem dropBadTx_proj (i : TraceInst) :
    (dropBadTx i).fn = i.fn ∧ (dropBadTx i).bb = i.bb ∧ (dropBadTx i).pp = i.pp ∧
    (dropBadTx i).op = i.op ∧ (dropBadTx i).def_id = i.def_id ∧
    (dropBadTx i).uses = i.uses ∧ (dropBadTx i).def_ty = i.def_ty ∧
    (dropBadTx i).use_tys = i.use_tys := by
  unfold dropBadTx
  cases i.tx with
  | none => exact ⟨rfl, rfl, rfl, rfl, rfl, rfl, rfl, rfl⟩
  | some t =>
      by_cases h : (i.uses.length : Int) ≤ t.which <;>
        simp [h]

theorem evalInst_dropBadTx (ptrW : Nat) (i : TraceInst) (st : SymState) (tag : String)
    (prev : Option String) :
    evalInst ptrW (dropBadTx i) st tag prev = evalInst ptrW i st tag prev := by
  unfold dropBadTx
  cases i.tx with
  | none => rfl
  | some t =>
      by_cases h : (i.uses.length : Int) ≤ t.which
      · simp only [if_pos h]
        obtain ⟨fn, bb, pp, op, d, u, tx, dt, ut⟩ := i
        rfl
      · simp only [if_neg h]

theorem evalInst_tx_none (ptrW : Nat) (i : TraceInst) (st : SymState) (tag : String)
    (prev : Option String) :
    evalInst ptrW { i with tx := none } st tag prev = evalInst ptrW i st tag prev := by
  obtain ⟨fn, bb, pp, op, d, u, tx, dt, ut⟩ := i
  rfl

theorem dropBadTx_eq_self_of_none {i : TraceInst} (htx : i.tx = none) : dropBadTx i = i := by
  simp [dropBadTx, htx]

theorem dropBadTx_eq_self_of_lt {i : TraceInst} {t : TxInfo} (htx : i.tx = some t)
    (hw : t.which < (i.uses.length : Int)) : dropBadTx i = i := by
  simp [dropBadTx, htx, not_le.mpr hw]

theorem dropBadTx_strip {i : TraceInst} {t : TxInfo} (htx : i.tx = some t)
    (hw : (i.uses.length : Int) ≤ t.which) : dropBadTx i = { i with tx := none } := by
  simp [dropBadTx, htx, hw]

theorem exceptBind_ok {a b : Type} (x : a) (f : a → Except String b) :
    (Except.ok x >>= f) = f x := rfl

theorem exceptBind_error {a b : Type} (e : String) (f : a → Except String b) :
    ((Except.error e : Except String a) >>= f) = Except.error e := rfl

theorem exceptMap_ok {a b : Type} (f : a → b) (x : a) :
    Except.map f (Except.ok x : Except String a) = Except.ok (f x) := rfl

theorem execLoop_dropBadTx (ptrW : Nat) (insts : List TraceInst) :
    ∀ (stA stB : SymState) (prev cur : Option String) (txs : List ZExpr),
      execLoop ptrW (insts.map dropBadTx) stA stB prev cur txs =
        execLoop ptrW insts stA stB prev cur txs := by
  induction insts with
  | nil => intro _ _ _ _ _; rfl
  | cons i rest ih =>
      intro stA stB prev cur txs
      rw [List.map_cons]
      have hstep :
          ∀ insts2 : List TraceInst,
            execLoop ptrW (dropBadTx i :: insts2) stA stB prev cur txs =
              execLoop ptrW (i :: insts2) stA stB prev cur txs := by
        intro insts2
        rcases htx : i.tx with _ | t
        · rw [dropBadTx_eq_self_of_none htx]
        · by_cases hw : (i.uses.length : Int) ≤ t.which
          · rw [dropBadTx_strip htx hw]
            simp only [execLoop, htx]
            have hbb : ({ i with tx := none } : TraceInst).bb = i.bb := rfl
            rw [hbb, evalInst_tx_none]
            cases evalInst ptrW i stA "A"
                (if cur ≠ some i.bb then (cur, some i.bb) else (prev, cur)).1 with
            | error e => rfl
            | ok pA =>
                obtain ⟨stA1, rA⟩ := pA
                try simp only [exceptBind_ok, evalInst_tx_none]
                cases evalInst ptrW i stB "B"
                    (if cur ≠ some i.bb then (cur, some i.bb) else (prev, cur)).1 with
                | error e => rfl
                | ok pB =>
                    obtain ⟨stB1, rB⟩ := pB
                    simp only [if_neg (not_lt.mpr hw)]
          · rw [dropBadTx_eq_self_of_lt htx (not_le.mp hw)]
      rw [hstep (rest.map dropBadTx)]
      -- both heads are now `i`; step once and apply the induction hypothesis
      simp only [execLoop]
      cases evalInst ptrW i stA "A"
          (if cur ≠ some i.bb then (cur, some i.bb) else (prev, cur)).1 with
      | error e => rfl
      | ok pA =>
          obtain ⟨stA1, rA⟩ := pA
          try simp only [exceptBind_ok]
          cases evalInst ptrW i stB "B"
              (if cur ≠ some i.bb then (cur, some i.bb) else (prev, cur)).1 with
          | error e => rfl
          | ok pB =>
              obtain ⟨stB1, rB⟩ := pB
              try simp only [exceptBind_ok]
              cases htx : i.tx with
              | none => exact ih _ _ _ _ _
              | some t =>
                  by_cases hw2 : t.which < (i.uses.length : Int)
                  · simp only [if_pos hw2]
                    cases pyIndex i.uses t.which with
                    | error e => rfl
                    | ok op_id =>
                        try simp only [exceptBind_ok]
                        cases hty : i.use_tys with
                        | none =>
                            try simp only [exceptBind_ok]
                            cases eval_operand ptrW stA1 op_id ptrW with
                            | error e => rfl
                            | ok qA =>
                                obtain ⟨stA2, aE⟩ := qA
                                try simp only [exceptBind_ok]
                                cases eval_operand ptrW stB1 op_id ptrW with
                                | error e => rfl
                                | ok qB =>
                                    obtain ⟨stB2, bE⟩ := qB
                                    exact ih _ _ _ _ _
                        | some tys =>
                            by_cases hg : tys ≠ [] ∧ t.which < (tys.length : Int)
                            · simp only [if_pos hg]
                              cases pyIndex tys t.which with
                              | error e => rfl
                              | ok ty =>
                                  try simp only [exceptMap_ok, exceptBind_ok]
                                  cases eval_operand ptrW stA1 op_id
                                      (parse_ty_width (some ty) ptrW) with
                                  | error e => rfl
                                  | ok qA =>
                                      obtain ⟨stA2, aE⟩ := qA
                                      try simp only [exceptBind_ok]
                                      cases eval_operand ptrW stB1 op_id
                                          (parse_ty_width (some ty) ptrW) with
                                      | error e => rfl
                                      | ok qB =>
                                          obtain ⟨stB2, bE⟩ := qB
                                          exact ih _ _ _ _ _
                            · simp only [if_neg hg]
                              try simp only [exceptBind_ok]
                              cases eval_operand ptrW stA1 op_id ptrW with
                              | error e => rfl
                              | ok qA =>
                                  obtain ⟨stA2, aE⟩ := qA
                                  try simp only [exceptBind_ok]
                                  cases eval_operand ptrW stB1 op_id ptrW with
                                  | error e => rfl
                                  | ok qB =>
                                      obtain ⟨stB2, bE⟩ := qB
                                      exact ih _ _ _ _ _
                  · simp only [if_neg hw2]
                    exact ih _ _ _ _ _

theorem mkVerdict_dropBadTx (pid : Int) (i : TraceInst) (p : Option Bool) :
    mkVerdict pid (dropBadTx i) p = mkVerdict pid i p := by
  obtain ⟨fn, bb, pp, op, d, u, tx, dt, ut⟩ := i
  cases tx with
  | none => rfl
  | some t =>
      by_cases h : ((u.length : Int) ≤ t.which) <;> simp [dropBadTx, mkVerdict, h]

theorem queryLoop_dropBadTx (check : List ZExpr → ZExpr → Option Bool) (enable : Bool)
    (base : List ZExpr) (stA stB : SymState) (pid : Int) :
    ∀ (insts : List TraceInst) (cache : Cache),
      queryLoop check enable base stA stB pid (insts.map dropBadTx) cache =
        queryLoop check enable base stA stB pid insts cache := by
  intro insts
  induction insts with
  | nil => intro _; rfl
  | cons i rest ih =>
      intro cache
      obtain ⟨hfn, hbb, hpp, hop, hdef, huse, hdty, huty⟩ := dropBadTx_proj i
      rw [List.map_cons]
      cases hdt : pyTruthy i.def_id with
      | false => simp only [queryLoop, hdef, hdt, Bool.false_eq_true, if_false, ih cache]
      | true =>
          simp only [queryLoop, hdef, hdt, if_true]
          cases hA : dget stA.env (i.def_id.getD "") with
          | none => simp only [hA, ih cache, mkVerdict_dropBadTx]
          | some aE =>
              cases hB : dget stB.env (i.def_id.getD "") with
              | none => simp only [hA, hB, ih cache, mkVerdict_dropBadTx]
              | some bE =>
                  simp only [hA, hB]
                  cases hc : (if enable then dget cache (base, ZExpr.zne aE bE) else none) with
                  | some sat => simp only [hc, ih cache, mkVerdict_dropBadTx]
                  | none => simp only [hc, ih, mkVerdict_dropBadTx]

theorem pathBase_dropBadTx (ptrW : Nat) (insts : List TraceInst) (pcs : List String)
    (pcjs : List PCondJson) :
    pathBase ptrW (insts.map dropBadTx) pcs pcjs = pathBase ptrW insts pcs pcjs := by
  unfold pathBase
  simp only [execLoop_dropBadTx]

/-- C10: an instruction whose transmitter index is out of range
(`which >= len(uses)`) contributes no transmitter equality and raises no
error: `analyze_path` returns exactly what it returns with the tag
removed, on every input and engine configuration. -/
theorem c10_out_of_range_tx (check : List ZExpr → ZExpr → Option Bool) (enable : Bool)
    (cache : Cache) (ptrW : Nat) (pid : Int) (insts : List TraceInst)
    (pcs : List String) (pcjs : List PCondJson) :
    analyzePath check enable cache ptrW pid (insts.map dropBadTx) pcs pcjs =
      analyzePath check enable cache ptrW pid insts pcs pcjs := by
  unfold analyzePath
  rw [pathBase_dropBadTx]
  cases pathBase ptrW insts pcs pcjs with
  | error e => rfl
  | ok trip =>
      obtain ⟨stA, stB, base⟩ := trip
      simp only [queryLoop_dropBadTx]
      have hlen : (insts.map dropBadTx).length = insts.length := List.length_map _ _
      have hcnt :
          ((insts.map dropBadTx).filter (fun i => pyTruthy i.def_id)).length =
            (insts.filter (fun i => pyTruthy i.def_id)).length := by
        rw [List.filter_map]
        rw [List.length_map]
        congr 1
        apply List.filter_congr
        intro i _
        rw [Function.comp_apply, (dropBadTx_proj i).2.2.2.2.1]
      have hhead :
          (((insts.map dropBadTx).head?).map (fun i => i.fn)).getD "" =
            ((insts.head?).map (fun i => i.fn)).getD "" := by
        rw [List.head?_map, Option.map_map]
        have hf : ((fun i : TraceInst => i.fn) ∘ dropBadTx) = (fun i : TraceInst => i.fn) := by
          funext i
          exact (dropBadTx_proj i).1
        rw [hf]
      rw [hlen, hcnt, hhead]

/-! ## C9 — summary invariants of `analyze_path` -/

theorem optCounter_sum (o : Option Bool) :
    (if o = some true then 1 else 0) + (if o = some false then 1 else 0) +
      (if o = none then 1 else 0) = 1 := by
  rcases o with _ | b
  · simp
  · cases b <;> simp

theorem queryLoop_spec (check : List ZExpr → ZExpr → Option Bool) (enable : Bool)
    (base : List ZExpr) (stA stB : SymState) (pid : Int) :
    ∀ (insts : List TraceInst) (cache : Cache),
      (queryLoop check enable base stA stB pid insts cache).query_count =
          (insts.filter (fun i => pyTruthy i.def_id)).length ∧
      (queryLoop check enable base stA stB pid insts cache).sat_count +
          (queryLoop check enable base stA stB pid insts cache).unsat_count +
          (queryLoop check enable base stA stB pid insts cache).unknown_count =
          (queryLoop check enable base stA stB pid insts cache).query_count ∧
      (queryLoop check enable base stA stB pid insts cache).recs.map
          (fun r => (r.pp, r.value)) =
        (insts.filter (fun i => pyTruthy i.def_id)).map
          (fun i => (i.pp, i.def_id.getD "")) := by
  intro insts
  induction insts with
  | nil => intro _; exact ⟨rfl, rfl, rfl⟩
  | cons i rest ih =>
      intro cache
      cases hdt : pyTruthy i.def_id with
      | false =>
          have hfil : (i :: rest).filter (fun i => pyTruthy i.def_id) =
              rest.filter (fun i => pyTruthy i.def_id) := by
            simp [List.filter_cons, hdt]
          simp only [queryLoop, hdt, Bool.false_eq_true, if_false, hfil]
          exact ih cache
      | true =>
          have hfil :
              (i :: rest).filter (fun i => pyTruthy i.def_id) =
                i :: rest.filter (fun i => pyTruthy i.def_id) := by
            simp [List.filter_cons, hdt]
          simp only [queryLoop, hdt, if_true, hfil]
          cases hA : dget stA.env (i.def_id.getD "") with
          | none =>
              obtain ⟨ih1, ih2, ih3⟩ := ih cache
              simp only [hA, List.length_cons, List.map_cons, mkVerdict]
              exact ⟨by omega, by omega, by rw [ih3]⟩
          | some aE =>
              cases hB : dget stB.env (i.def_id.getD "") with
              | none =>
                  obtain ⟨ih1, ih2, ih3⟩ := ih cache
                  simp only [hA, hB, List.length_cons, List.map_cons, mkVerdict]
                  exact ⟨by omega, by omega, by rw [ih3]⟩
              | some bE =>
                  simp only [hA, hB]
                  cases hc : (if enable then dget cache (base, ZExpr.zne aE bE) else none) with
                  | some sat =>
                      obtain ⟨ih1, ih2, ih3⟩ := ih cache
                      simp only [hc, List.length_cons, List.map_cons, mkVerdict]
                      refine ⟨by omega, ?_, by rw [ih3]⟩
                      have hone := optCounter_sum sat
                      omega
                  | none =>
                      obtain ⟨ih1, ih2, ih3⟩ :=
                        ih (if enable then dset cache (base, ZExpr.zne aE bE)
                              (check base (ZExpr.zne aE bE)) else cache)
                      simp only [hc, List.length_cons, List.map_cons, mkVerdict]
                      refine ⟨by omega, ?_, by rw [ih3]⟩
                      have hone := optCounter_sum (check base (ZExpr.zne aE bE))
                      omega

/-- C9: whenever `analyze_path` returns, the summary satisfies
`query_count = def_count` = number of instructions with a truthy `def_id`,
`sat_count + unsat_count + unknown_count = query_count`, and
`inst_count` = the instruction count; and the verdict stream carries
exactly one record per defining instruction, in order, with that
instruction's `pp` and `def_id`. -/
theorem c9_summary_invariants (check : List ZExpr → ZExpr → Option Bool) (enable : Bool)
    (cache : Cache) (ptrW : Nat) (pid : Int) (insts : List TraceInst)
    (pcs : List String) (pcjs : List PCondJson)
    (res : List PathPublicness) (sum : PathAnalysisSummary) (cache2 : Cache)
    (h : analyzePath check enable cache ptrW pid insts pcs pcjs = .ok (res, sum, cache2)) :
    sum.query_count = sum.def_count ∧
    sum.def_count = (insts.filter (fun i => pyTruthy i.def_id)).length ∧
    sum.sat_count + sum.unsat_count + sum.unknown_count = sum.query_count ∧
    sum.inst_count = insts.length ∧
    res.map (fun r => (r.pp, r.value)) =
      (insts.filter (fun i => pyTruthy i.def_id)).map
        (fun i => (i.pp, i.def_id.getD "")) := by
  unfold analyzePath at h
  cases hpb : pathBase ptrW insts pcs pcjs with
  | error e => rw [hpb] at h; exact absurd h (by simp)
  | ok trip =>
      obtain ⟨stA, stB, base⟩ := trip
      rw [hpb] at h
      simp only [Except.ok.injEq, Prod.mk.injEq] at h
      obtain ⟨hres, hsum, _⟩ := h
      obtain ⟨hq, hcount, hrecs⟩ := queryLoop_spec check enable base stA stB pid insts cache
      subst hres
      rw [← hsum]
      exact ⟨hq, rfl, hcount, rfl, hrecs⟩

/-- Witness for C9 at a one-instruction path. -/
theorem c9_summary_invariants_witness :
    (⟨"f", 5, 1, 1, 1, 1, 0, 0, 0, 0, 1⟩ : PathAnalysisSummary).query_count =
        (⟨"f", 5, 1, 1, 1, 1, 0, 0, 0, 0, 1⟩ : PathAnalysisSummary).def_count ∧
    (⟨"f", 5, 1, 1, 1, 1, 0, 0, 0, 0, 1⟩ : PathAnalysisSummary).def_count =
        (([⟨"f", "bb0", "p0", "load", some "s", ["ptrX"], none, some "i32", none⟩] :
            List TraceInst).filter (fun i => pyTruthy i.def_id)).length ∧
    (⟨"f", 5, 1, 1, 1, 1, 0, 0, 0, 0, 1⟩ : PathAnalysisSummary).sat_count +
        (⟨"f", 5, 1, 1, 1, 1, 0, 0, 0, 0, 1⟩ : PathAnalysisSummary).unsat_count +
        (⟨"f", 5, 1, 1, 1, 1, 0, 0, 0, 0, 1⟩ : PathAnalysisSummary).unknown_count =
        (⟨"f", 5, 1, 1, 1, 1, 0, 0, 0, 0, 1⟩ : PathAnalysisSummary).query_count ∧
    (⟨"f", 5, 1, 1, 1, 1, 0, 0, 0, 0, 1⟩ : PathAnalysisSummary).inst_count =
        ([⟨"f", "bb0", "p0", "load", some "s", ["ptrX"], none, some "i32", none⟩] :
          List TraceInst).length ∧
    ([⟨"f", 5, "p0", "s", some true⟩] : List PathPublicness).map (fun r => (r.pp, r.value)) =
      (([⟨"f", "bb0", "p0", "load", some "s", ["ptrX"], none, some "i32", none⟩] :
          List TraceInst).filter (fun i => pyTruthy i.def_id)).map
        (fun i => (i.pp, i.def_id.getD "")) :=
  c9_summary_invariants (fun _ _ => some true) true [] 64 5
    [⟨"f", "bb0", "p0", "load", some "s", ["ptrX"], none, some "i32", none⟩] [] []
    [⟨"f", 5, "p0", "s", some true⟩] ⟨"f", 5, 1, 1, 1, 1, 0, 0, 0, 0, 1⟩
    [(([], ZExpr.zne (ZExpr.bvsym "A_load_A_ptrX_0" 32) (ZExpr.bvsym "B_load_B_ptrX_0" 32)),
       some true)] rfl

/-! ## C7 — cache equivalence -/

/-- A cache state is consistent with the solver when every stored verdict
is the solver's answer for its query.  A fresh (empty) cache is trivially
consistent; entries written by the engine store the solver's own answer. -/
def CacheConsistent (check : List ZExpr → ZExpr → Option Bool) (cache : Cache) : Prop :=
  ∀ (base : List ZExpr) (diff : ZExpr) (v : Option Bool),
    dget cache (base, diff) = some v → check base diff = v

theorem cacheConsistent_dset {check : List ZExpr → ZExpr → Option Bool} {cache : Cache}
    (h : CacheConsistent check cache) (base : List ZExpr) (diff : ZExpr) :
    CacheConsistent check (dset cache (base, diff) (check base diff)) := by
  intro b d v hv
  by_cases hk : ((base, diff) : List ZExpr × ZExpr) = (b, d)
  · injection hk with h1 h2
    subst h1
    subst h2
    rw [dget_dset_self] at hv
    exact Option.some_inj.mp hv
  · rw [dget_dset_ne _ _ hk] at hv
    exact h _ _ _ hv

theorem queryLoop_recs_cache (check : List ZExpr → ZExpr → Option Bool)
    (base : List ZExpr) (stA stB : SymState) (pid : Int) :
    ∀ (insts : List TraceInst) (cache cache' : Cache),
      CacheConsistent check cache →
      (queryLoop check true base stA stB pid insts cache).recs =
        (queryLoop check false base stA stB pid insts cache').recs := by
  intro insts
  induction insts with
  | nil => intro _ _ _; rfl
  | cons i rest ih =>
      intro cache cache' hcons
      cases hdt : pyTruthy i.def_id with
      | false =>
          simp only [queryLoop, hdt, Bool.false_eq_true, if_false]
          exact ih _ _ hcons
      | true =>
          simp only [queryLoop, hdt, if_true]
          cases hA : dget stA.env (i.def_id.getD "") with
          | none =>
              simp only [hA]
              rw [ih cache cache' hcons]
          | some aE =>
              cases hB : dget stB.env (i.def_id.getD "") with
              | none =>
                  simp only [hA, hB]
                  rw [ih cache cache' hcons]
              | some bE =>
                  simp only [hA, hB]
                  norm_num
                  cases hc : dget cache (base, ZExpr.zne aE bE) with
                  | some v =>
                      have hv : check base (ZExpr.zne aE bE) = v := hcons _ _ _ hc
                      simp only [hc, hv]
                      rw [ih cache cache' hcons]
                  | none =>
                      simp only [hc]
                      rw [ih (dset cache (base, ZExpr.zne aE bE) (check base (ZExpr.zne aE bE)))
                          cache' (cacheConsistent_dset hcons base (ZExpr.zne aE bE))]

/-- C7: with a solver-consistent starting cache (in particular a fresh
one), `analyze_path` emits the identical verdict stream with the query
cache enabled and disabled, for every input. -/
theorem c7_cache_equivalence (check : List ZExpr → ZExpr → Option Bool)
    (cache cache' : Cache) (ptrW : Nat) (pid : Int) (insts : List TraceInst)
    (pcs : List String) (pcjs : List PCondJson)
    (hcons : CacheConsistent check cache) :
    (analyzePath check true cache ptrW pid insts pcs pcjs).map (fun o => o.1) =
      (analyzePath check false cache' ptrW pid insts pcs pcjs).map (fun o => o.1) := by
  unfold analyzePath
  cases pathBase ptrW insts pcs pcjs with
  | error e => rfl
  | ok trip =>
      obtain ⟨stA, stB, base⟩ := trip
      simp only [Except.map]
      rw [queryLoop_recs_cache check base stA stB pid insts cache cache' hcons]

/-- Witness for C7 on a one-instruction path with a fresh cache. -/
theorem c7_cache_equivalence_witness :
    (analyzePath (fun _ _ => some true) true [] 64 5
        [⟨"f", "bb0", "p0", "load", some "s", ["ptrX"], none, some "i32", none⟩] [] []).map
        (fun o => o.1) =
      (analyzePath (fun _ _ => some true) false [] 64 5
        [⟨"f", "bb0", "p0", "load", some "s", ["ptrX"], none, some "i32", none⟩] [] []).map
        (fun o => o.1) :=
  c7_cache_equivalence (fun _ _ => some true) [] [] 64 5
    [⟨"f", "bb0", "p0", "load", some "s", ["ptrX"], none, some "i32", none⟩] [] []
    (by intro b d v h; simp [dget] at h)

/-! ## C3 — aggregation soundness -/

theorem mem_dedupAux : ∀ (l seen : List String) (x : String),
    x ∈ dedupAux l seen ↔ x ∈ l ∧ x ∉ seen := by
  intro l
  induction l with
  | nil => intro seen x; simp [dedupAux]
  | cons y t ih =>
      intro seen x
      by_cases hy : y ∈ seen
      · rw [show dedupAux (y :: t) seen = dedupAux t seen from by simp [dedupAux, hy], ih]
        constructor
        · rintro ⟨h1, h2⟩
          exact ⟨List.mem_cons_of_mem _ h1, h2⟩
        · rintro ⟨h1, h2⟩
          rcases List.mem_cons.mp h1 with rfl | h1
          · exact absurd hy h2
          · exact ⟨h1, h2⟩
      · rw [show dedupAux (y :: t) seen = y :: dedupAux t (y :: seen) from by
          simp [dedupAux, hy]]
        constructor
        · intro hx
          rcases List.mem_cons.mp hx with rfl | hx
          · exact ⟨List.mem_cons_self _ _, hy⟩
          · obtain ⟨h1, h2⟩ := (ih (y :: seen) x).mp hx
            exact ⟨List.mem_cons_of_mem _ h1, fun hs => h2 (List.mem_cons_of_mem _ hs)⟩
        · rintro ⟨h1, h2⟩
          rcases List.mem_cons.mp h1 with rfl | h1
          · exact List.mem_cons_self _ _
          · by_cases hxy : x = y
            · subst hxy
              exact List.mem_cons_self _ _
            · refine List.mem_cons_of_mem _ ((ih (y :: seen) x).mpr ⟨h1, ?_⟩)
              intro hs
              rcases List.mem_cons.mp hs with h | h
              · exact hxy h
              · exact h2 h

theorem dedupAux_nodup : ∀ (l seen : List String), (dedupAux l seen).Nodup := by
  intro l
  induction l with
  | nil => intro seen; simp [dedupAux]
  | cons y t ih =>
      intro seen
      by_cases hy : y ∈ seen
      · rw [show dedupAux (y :: t) seen = dedupAux t seen from by simp [dedupAux, hy]]
        exact ih seen
      · rw [show dedupAux (y :: t) seen = y :: dedupAux t (y :: seen) from by
          simp [dedupAux, hy]]
        refine List.nodup_cons.mpr ⟨?_, ih _⟩
        intro hmem
        exact ((mem_dedupAux t (y :: seen) y).mp hmem).2 (List.mem_cons_self _ _)

theorem insertSorted_perm (x : String) (l : List String) :
    List.Perm (insertSorted x l) (x :: l) := by
  induction l with
  | nil => exact List.Perm.refl _
  | cons y t ih =>
      unfold insertSorted
      cases hle : pyStrLe x y
      · simp only [hle, Bool.false_eq_true, if_false]
        exact (List.Perm.cons _ ih).trans (List.Perm.swap _ _ _)
      · simp only [hle, if_true]
        exact List.Perm.refl _

theorem sortStrings_perm (l : List String) : List.Perm (sortStrings l) l := by
  induction l with
  | nil => exact List.Perm.refl _
  | cons y t ih => exact (insertSorted_perm y (sortStrings t)).trans (List.Perm.cons _ ih)

theorem mem_sortedValues (values : List String) (x : String) :
    x ∈ sortStrings (dedupAux values []) ↔ x ∈ values := by
  rw [(sortStrings_perm _).mem_iff, mem_dedupAux]
  simp

theorem sortedValues_nodup (values : List String) :
    (sortStrings (dedupAux values [])).Nodup :=
  ((sortStrings_perm _).nodup_iff).mpr (dedupAux_nodup _ _)

theorem aggStatsAux_false_mono (per_path : List (Int × Option Bool)) :
    ∀ (ids : List Int) (acc : Nat × Bool × Bool), acc.2.1 = true →
      (aggStatsAux per_path ids acc).2.1 = true := by
  intro ids
  induction ids with
  | nil => intro acc h; exact h
  | cons j t ih =>
      intro acc h
      unfold aggStatsAux
      apply ih
      unfold aggStep
      cases hj : dget per_path j with
      | none => exact h
      | some v =>
          rcases v with _ | b
          · exact h
          · cases b
            · rfl
            · exact h

theorem aggStats_false (per_path : List (Int × Option Bool)) (ids : List Int) (pid : Int)
    (hmem : pid ∈ ids) (hval : dget per_path pid = some (some false)) :
    (aggStats per_path ids).2.1 = true := by
  unfold aggStats
  suffices h : ∀ (ids2 : List Int) (acc : Nat × Bool × Bool), pid ∈ ids2 →
      (aggStatsAux per_path ids2 acc).2.1 = true from h ids _ hmem
  intro ids2
  induction ids2 with
  | nil => intro acc h; simp at h
  | cons j t ih =>
      intro acc hm
      unfold aggStatsAux
      rcases List.mem_cons.mp hm with rfl | hm
      · apply aggStatsAux_false_mono
        unfold aggStep
        rw [hval]
      · exact ih _ hm

theorem aggDecide_false {stats : Nat × Bool × Bool} (h : stats.2.1 = true)
    (trunc : Bool) (policy : String) : aggDecide stats trunc policy = some false := by
  unfold aggDecide
  rw [h]
  simp

theorem buildPpPaths_nodupKeys (paths : List CfgPath) (cov : List PpCoverage) :
    ((buildPpPaths paths cov).map Prod.fst).Nodup := by
  unfold buildPpPaths
  by_cases hc : cov.isEmpty = false
  · rw [if_pos hc]
    have hgen : ∀ (l : List PpCoverage) (m : List ((String × String) × (List Int × Bool))),
        (m.map Prod.fst).Nodup →
        ((l.foldl (fun m r => dset m (r.fn, r.pp) (r.path_ids, r.truncated)) m).map
          Prod.fst).Nodup := by
      intro l
      induction l with
      | nil => intro m hm; exact hm
      | cons r t ih => intro m hm; exact ih _ (nodupKeys_dset _ _ hm)
    exact hgen cov [] (by simp)
  · rw [if_neg hc]
    have hinner : ∀ (seq : List String) (f : String) (pid : Int)
        (acc : List ((String × String) × (List Int × Bool)) × List (String × String)),
        (acc.1.map Prod.fst).Nodup →
        (((seq.foldl
            (fun acc pp =>
              let key := (f, pp)
              if key ∈ acc.2 then acc
              else
                let cur := (dget acc.1 key).getD ([], false)
                (dset acc.1 key (cur.1 ++ [pid], cur.2), key :: acc.2))
            acc).1).map Prod.fst).Nodup := by
      intro seq f pid
      induction seq with
      | nil => intro acc h; exact h
      | cons pp t ih =>
          intro acc h
          rw [List.foldl_cons]
          by_cases hk : (f, pp) ∈ acc.2
          · simp only [if_pos hk]
            exact ih _ h
          · simp only [if_neg hk]
            exact ih _ (nodupKeys_dset _ _ h)
    have hgen : ∀ (ps : List CfgPath) (m : List ((String × String) × (List Int × Bool))),
        (m.map Prod.fst).Nodup →
        ((ps.foldl
            (fun m p =>
              match p.path_id with
              | none => m
              | some pid =>
                  if p.pp_seq.isEmpty then m
                  else
                    (p.pp_seq.foldl
                      (fun acc pp =>
                        let key := (p.fn, pp)
                        if key ∈ acc.2 then acc
                        else
                          let cur := (dget acc.1 key).getD ([], false)
                          (dset acc.1 key (cur.1 ++ [pid], cur.2), key :: acc.2))
                      (m, [])).1)
            m).map Prod.fst).Nodup := by
      intro ps
      induction ps with
      | nil => intro m hm; exact hm
      | cons p t ih =>
          intro m hm
          rw [List.foldl_cons]
          apply ih
          cases hp : p.path_id with
          | none => exact hm
          | some pid =>
              by_cases he : p.pp_seq.isEmpty
              · simp only [if_pos he]
                exact hm
              · simp only [if_neg he]
                exact hinner _ _ _ (m, []) hm
    exact hgen paths [] (by simp)

theorem mem_aggItemRecords (results : List ((String × String × String) × List (Int × Option Bool)))
    (policy : String) (fn pp value : String) (ids : List Int) (trunc : Bool)
    (inner : List (Int × Option Bool))
    (hres : dget results (fn, pp, value) = some inner) :
    (⟨fn, pp, value,
       aggDecide (aggStats ((dget results (fn, pp, value)).getD []) ids) trunc policy,
       ids.length, (aggStats ((dget results (fn, pp, value)).getD []) ids).1, trunc⟩ :
      PublicAtPoint) ∈ aggItemRecords results policy ((fn, pp), (ids, trunc)) := by
  have hkv : ((fn, pp, value), inner) ∈ results := dget_mem hres
  unfold aggItemRecords
  simp only []
  have hv : value ∈ results.filterMap
      (fun kv => if kv.1.1 = fn ∧ kv.1.2.1 = pp then some kv.1.2.2 else none) := by
    refine List.mem_filterMap.mpr ⟨((fn, pp, value), inner), hkv, ?_⟩
    simp
  rw [if_neg (by
    intro hemp
    rw [List.isEmpty_iff] at hemp
    rw [hemp] at hv
    exact absurd hv (List.not_mem_nil _))]
  exact List.mem_map.mpr ⟨value, (mem_sortedValues _ _).mpr hv, rfl⟩

theorem aggItemRecords_shape (results : List ((String × String × String) × List (Int × Option Bool)))
    (policy : String) (item : (String × String) × (List Int × Bool))
    (rec : PublicAtPoint) (hrec : rec ∈ aggItemRecords results policy item) :
    rec.fn = item.1.1 ∧ rec.pp = item.1.2 ∧
    rec.public =
      aggDecide (aggStats ((dget results (item.1.1, item.1.2, rec.value)).getD []) item.2.1)
        item.2.2 policy := by
  unfold aggItemRecords at hrec
  simp only [] at hrec
  by_cases hemp : (results.filterMap
      (fun kv => if kv.1.1 = item.1.1 ∧ kv.1.2.1 = item.1.2 then some kv.1.2.2
                 else none)).isEmpty
  · rw [if_pos hemp] at hrec
    exact absurd hrec (List.not_mem_nil _)
  · rw [if_neg hemp] at hrec
    obtain ⟨v, _, rfl⟩ := List.mem_map.mp hrec
    exact ⟨rfl, rfl, rfl⟩

/-- C3: if any covering path of `(fn, pp)` has a recorded verdict
`public = false` for `value`, the aggregate for `(fn, pp, value)` is
emitted with `public = false`, for every `missing_policy`, independently
of missing paths and of the truncation flag. -/
theorem c3_aggregation_soundness (paths : List CfgPath) (cov : List PpCoverage)
    (path_results : List PathPublicness) (policy : String)
    (fn pp value : String) (ids : List Int) (trunc : Bool) (pid : Int)
    (inner : List (Int × Option Bool))
    (hpp : dget (buildPpPaths paths cov) (fn, pp) = some (ids, trunc))
    (hmem : pid ∈ ids)
    (hres : dget (buildResults path_results) (fn, pp, value) = some inner)
    (hval : dget inner pid = some (some false)) :
    (∃ rec ∈ aggregate_public_at_point paths cov path_results policy,
        rec.fn = fn ∧ rec.pp = pp ∧ rec.value = value ∧ rec.public = some false) ∧
    (∀ rec ∈ aggregate_public_at_point paths cov path_results policy,
        rec.fn = fn → rec.pp = pp → rec.value = value → rec.public = some false) := by
  have hfalse : (aggStats inner ids).2.1 = true := aggStats_false inner ids pid hmem hval
  constructor
  · refine ⟨⟨fn, pp, value,
      aggDecide (aggStats ((dget (buildResults path_results) (fn, pp, value)).getD []) ids)
        trunc policy,
      ids.length,
      (aggStats ((dget (buildResults path_results) (fn, pp, value)).getD []) ids).1, trunc⟩,
      ?_, rfl, rfl, rfl, ?_⟩
    · unfold aggregate_public_at_point
      refine List.mem_flatten.mpr
        ⟨aggItemRecords (buildResults path_results) policy ((fn, pp), (ids, trunc)),
         List.mem_map.mpr ⟨((fn, pp), (ids, trunc)), dget_mem hpp, rfl⟩, ?_⟩
      exact mem_aggItemRecords _ policy fn pp value ids trunc inner hres
    · rw [hres]
      exact aggDecide_false (by simpa using hfalse) trunc policy
  · intro rec hrec hfn2 hpp2 hv2
    unfold aggregate_public_at_point at hrec
    obtain ⟨l, hl, hrl⟩ := List.mem_flatten.mp hrec
    obtain ⟨item, hitem, rfl⟩ := List.mem_map.mp hl
    obtain ⟨h1, h2, h3⟩ := aggItemRecords_shape _ policy item rec hrl
    have hkey : item.1 = (fn, pp) := by
      rw [h1] at hfn2
      rw [h2] at hpp2
      cases item with
      | mk k v =>
          cases k with
          | mk a b =>
              simp only [] at hfn2 hpp2
              rw [hfn2, hpp2]
    have hitem2 : ((fn, pp), item.2) ∈ buildPpPaths paths cov := by
      rw [← hkey]
      exact hitem
    have hgot : dget (buildPpPaths paths cov) (fn, pp) = some item.2 :=
      mem_dget_of_nodup (buildPpPaths_nodupKeys paths cov) hitem2
    rw [hpp] at hgot
    have hpayload : item.2 = (ids, trunc) := (Option.some_inj.mp hgot).symm
    rw [h3, hkey, hpayload, hv2, hres]
    exact aggDecide_false (by simpa using hfalse) trunc policy

/-- Witness for C3 at a single covered point with one false verdict. -/
theorem c3_aggregation_soundness_witness :
    (∃ rec ∈ aggregate_public_at_point [] [⟨"f", "p", 1, [1], false⟩]
        [⟨"f", 1, "p", "v", some false⟩] "public",
        rec.fn = "f" ∧ rec.pp = "p" ∧ rec.value = "v" ∧ rec.public = some false) ∧
    (∀ rec ∈ aggregate_public_at_point [] [⟨"f", "p", 1, [1], false⟩]
        [⟨"f", 1, "p", "v", some false⟩] "public",
        rec.fn = "f" → rec.pp = "p" → rec.value = "v" → rec.public = some false) :=
  c3_aggregation_soundness [] [⟨"f", "p", 1, [1], false⟩] [⟨"f", 1, "p", "v", some false⟩]
    "public" "f" "p" "v" [1] false 1 [(1, some false)]
    (by decide) (by decide) (by decide) (by decide)

/-! ## C2 — free secret -/

/-- The single load of the free-secret scenario. -/
def c2_inst : TraceInst := ⟨"f", "bb0", "p0", "load", some "s", ["ptrX"], none, some "i32", none⟩

/-- The differential query issued for `s`: the two runs bound `s` to the
independent fresh symbols `A_load_A_ptrX_0` and `B_load_B_ptrX_0`. -/
def c2_diff : ZExpr :=
  .zne (.bvsym "A_load_A_ptrX_0" 32) (.bvsym "B_load_B_ptrX_0" 32)

/-- C2: on the one-load path with no transmitters and an empty path
condition, `analyze_path` emits exactly one verdict, for value `s`, with
`public = true`, for every solver that answers this (satisfiable) query
correctly.  The assertion set is empty and the differential compares two
independent symbols, so `A(s) ≠ B(s)` is satisfiable. -/
theorem c2_free_secret (check : List ZExpr → ZExpr → Option Bool)
    (hok : ∀ b, check [] c2_diff = some b → (b = true ↔ SatList [c2_diff]))
    (htot : check [] c2_diff ≠ none) :
    ∃ sum cache2,
      analyzePath check true [] 64 5 [c2_inst] [] [] =
        .ok ([⟨"f", 5, "p0", "s", some true⟩], sum, cache2) := by
  obtain ⟨b, hb⟩ : ∃ b, check [] c2_diff = some b := by
    cases hcv : check [] c2_diff with
    | none => exact absurd hcv htot
    | some b => exact ⟨b, rfl⟩
  have hsat : SatList [c2_diff] := by
    refine ⟨fun n => if n = "A_load_A_ptrX_0" then 0 else 1, ?_⟩
    intro c hc
    rw [List.mem_singleton] at hc
    subst hc
    decide
  have hbt : b = true := (hok b hb).mpr hsat
  subst hbt
  have hb' : check []
      (ZExpr.zne (.bvsym "A_load_A_ptrX_0" 32) (.bvsym "B_load_B_ptrX_0" 32)) = some true := hb
  have hout : ∃ sum cache2,
      analyzePath check true [] 64 5 [c2_inst] [] [] =
        .ok ([⟨"f", 5, "p0", "s",
               check [] (ZExpr.zne (.bvsym "A_load_A_ptrX_0" 32)
                 (.bvsym "B_load_B_ptrX_0" 32))⟩], sum, cache2) := ⟨_, _, rfl⟩
  obtain ⟨sum, cache2, hout⟩ := hout
  rw [hb'] at hout
  exact ⟨sum, cache2, hout⟩

/-- Witness for C2: a concrete total solver for this query. -/
theorem c2_free_secret_witness :
    ∃ sum cache2,
      analyzePath (fun a d => if a = [] ∧ d = c2_diff then some true else none)
          true [] 64 5 [c2_inst] [] [] =
        .ok ([⟨"f", 5, "p0", "s", some true⟩], sum, cache2) :=
  c2_free_secret (fun a d => if a = [] ∧ d = c2_diff then some true else none)
    (by
      intro b hbv
      have hbt : true = b := Option.some_inj.mp hbv
      constructor
      · intro _
        exact ⟨fun n => if n = "A_load_A_ptrX_0" then 0 else 1, by
          intro c hc
          rw [List.mem_singleton] at hc
          subst hc
          decide⟩
      · intro _
        exact hbt.symm)
    (fun h => Option.noConfusion h)

/-! ## C1 — transmitter-fixed secret -/

/-- The two-instruction path of the transmitter scenario: the load of `s`
followed by a call that transmits `s` (`tx = (leak, 0)`). -/
def c1_insts : List TraceInst :=
  [⟨"f", "bb0", "p0", "load", some "s", ["ptrX"], none, some "i32", none⟩,
   ⟨"f", "bb0", "p1", "call", some "sink", ["s"], some ⟨"leak", 0⟩, none, none⟩]

/-- The single assertion of this path: the transmitter equality
`A(s) == B(s)`. -/
def c1_base : List ZExpr :=
  [.zeq (.bvsym "A_load_A_ptrX_0" 32) (.bvsym "B_load_B_ptrX_0" 32)]

/-- The differential query for `s`. -/
def c1_diff_s : ZExpr :=
  .zne (.bvsym "A_load_A_ptrX_0" 32) (.bvsym "B_load_B_ptrX_0" 32)

/-- C1: with the transmitter equality asserted, the query `A(s) ≠ B(s)`
is unsatisfiable, so every solver that answers it correctly makes
`analyze_path` emit the verdict for `s` with `public = false` (first
record of the stream). -/
theorem c1_transmitter_fixed_secret (check : List ZExpr → ZExpr → Option Bool)
    (hok : ∀ b, check c1_base c1_diff_s = some b → (b = true ↔ SatList (c1_diff_s :: c1_base)))
    (htot : check c1_base c1_diff_s ≠ none) :
    ∃ rest sum cache2,
      analyzePath check true [] 64 7 c1_insts [] [] =
        .ok (⟨"f", 7, "p0", "s", some false⟩ :: rest, sum, cache2) := by
  obtain ⟨b, hb⟩ : ∃ b, check c1_base c1_diff_s = some b := by
    cases hcv : check c1_base c1_diff_s with
    | none => exact absurd hcv htot
    | some b => exact ⟨b, rfl⟩
  have hunsat : ¬ SatList (c1_diff_s :: c1_base) := by
    rintro ⟨σ, hσ⟩
    have h1 := hσ c1_diff_s (List.mem_cons_self _ _)
    have h2 := hσ (ZExpr.zeq (.bvsym "A_load_A_ptrX_0" 32) (.bvsym "B_load_B_ptrX_0" 32))
      (by simp [c1_base])
    simp [c1_diff_s, evalZ] at h1 h2
    exact h1 h2
  have hbf : b = false := by
    cases b with
    | false => rfl
    | true => exact absurd ((hok true hb).mp rfl) hunsat
  subst hbf
  have hb' : check [ZExpr.zeq (.bvsym "A_load_A_ptrX_0" 32) (.bvsym "B_load_B_ptrX_0" 32)]
      (ZExpr.zne (.bvsym "A_load_A_ptrX_0" 32) (.bvsym "B_load_B_ptrX_0" 32)) = some false := hb
  have hout : ∃ sum cache2,
      analyzePath check true [] 64 7 c1_insts [] [] =
        .ok ([⟨"f", 7, "p0", "s",
               check [ZExpr.zeq (.bvsym "A_load_A_ptrX_0" 32) (.bvsym "B_load_B_ptrX_0" 32)]
                 (ZExpr.zne (.bvsym "A_load_A_ptrX_0" 32) (.bvsym "B_load_B_ptrX_0" 32))⟩,
              ⟨"f", 7, "p1", "sink",
               check [ZExpr.zeq (.bvsym "A_load_A_ptrX_0" 32) (.bvsym "B_load_B_ptrX_0" 32)]
                 (ZExpr.zne (.bvsym "A_call_A_1" 64) (.bvsym "B_call_B_1" 64))⟩],
             sum, cache2) := ⟨_, _, rfl⟩
  obtain ⟨sum, cache2, hout⟩ := hout
  rw [hb'] at hout
  exact ⟨_, sum, cache2, hout⟩

/-- Witness for C1: a concrete solver answering `unsat` on this query. -/
theorem c1_transmitter_fixed_secret_witness :
    ∃ rest sum cache2,
      analyzePath (fun a d => if a = c1_base ∧ d = c1_diff_s then some false else none)
          true [] 64 7 c1_insts [] [] =
        .ok (⟨"f", 7, "p0", "s", some false⟩ :: rest, sum, cache2) :=
  c1_transmitter_fixed_secret
    (fun a d => if a = c1_base ∧ d = c1_diff_s then some false else none)
    (by
      intro b hbv
      have hbf : b = false := (Option.some_inj.mp hbv).symm
      subst hbf
      constructor
      · intro h
        exact absurd h (by simp)
      · rintro ⟨σ, hσ⟩
        have h1 := hσ c1_diff_s (List.mem_cons_self _ _)
        have h2 := hσ (ZExpr.zeq (.bvsym "A_load_A_ptrX_0" 32) (.bvsym "B_load_B_ptrX_0" 32))
          (by simp [c1_base])
        simp [c1_diff_s, evalZ] at h1 h2
        exact (h1 h2).elim)
    (fun h => Option.noConfusion h)

end Symex
